import Mathlib

/-!
# Verification of the worktree-manager reconciliation core

A shallow embedding of `src/app/api/worktrees/route.ts`: the string helpers
(JavaScript `split` / `join` / `includes` / `replace` semantics), the
branch/path naming convention, and a state model of the filesystem and of
each repository's git registry over which the route handlers
(`createWorktreeForRepo`, `GET` discovery, `POST`, `DELETE`) are embedded.
-/

namespace WTM

/-! ## JavaScript string primitives, on `List Char` -/

/-- JS `s.split(c)` on character lists: `splitAux c l acc` accumulates the
current token in reverse.  `"a--b".split('-') = ["a","","b"]`,
`"".split('-') = [""]`. -/
def splitAux (c : Char) : List Char → List Char → List (List Char)
  | [], acc => [acc.reverse]
  | x :: xs, acc =>
    if x = c then acc.reverse :: splitAux c xs [] else splitAux c xs (x :: acc)

/-- JS `parts.join(c)`. -/
def joinChar (c : Char) : List (List Char) → List Char
  | [] => []
  | x :: xs =>
    match xs with
    | [] => x
    | _ :: _ => x ++ c :: joinChar c xs

/-- JS `s.includes(sub)` (substring containment). -/
def listContains (l sub : List Char) : Bool :=
  sub.isPrefixOf l ||
    match l with
    | [] => false
    | _ :: t => listContains t sub

/-- JS `s.replace(pat, rep)` with a plain-string pattern: replaces only the
first occurrence; returns the input unchanged when the pattern is absent. -/
def replaceFirstList (l pat rep : List Char) : List Char :=
  if pat.isPrefixOf l then rep ++ l.drop pat.length
  else
    match l with
    | [] => []
    | x :: t => x :: replaceFirstList t pat rep

/-- Fuel-indexed worker for global replacement; every step consumes at
least one character, so `l.length` fuel computes the fixpoint. -/
def replaceAllAux (pat rep : List Char) : Nat → List Char → List Char
  | 0, l => l
  | fuel + 1, l =>
    if pat.isPrefixOf l && !pat.isEmpty then
      rep ++ replaceAllAux pat rep fuel (l.drop pat.length)
    else
      match l with
      | [] => []
      | x :: t => x :: replaceAllAux pat rep fuel t

/-- JS `s.replace(new RegExp(pat, 'g'), rep)`: replaces every occurrence. -/
def replaceAllList (l pat rep : List Char) : List Char :=
  replaceAllAux pat rep l.length l

/-! ## String wrappers -/

/-- JS `s.split(c)`. -/
def jsSplit (c : Char) (s : String) : List String :=
  (splitAux c s.data []).map (fun l => ⟨l⟩)

/-- JS `parts.join(c)`. -/
def jsJoin (c : Char) (parts : List String) : String :=
  ⟨joinChar c (parts.map String.data)⟩

/-- JS `s.includes(sub)`. -/
def jsIncludes (s sub : String) : Bool :=
  listContains s.data sub.data

/-- JS `s.replace(pat, rep)` (first occurrence only). -/
def jsReplaceFirst (s pat rep : String) : String :=
  ⟨replaceFirstList s.data pat.data rep.data⟩

/-- JS `s.replace(/pat/g, rep)` (every occurrence). -/
def jsReplaceAll (s pat rep : String) : String :=
  ⟨replaceAllList s.data pat.data rep.data⟩

/-- JS `s.startsWith(p)`. -/
def jsStartsWith (s p : String) : Bool :=
  p.data.isPrefixOf s.data

/-- JS `s.substring(i)` (drop the first `i` characters). -/
def jsSubstringFrom (s : String) (i : Nat) : String :=
  ⟨s.data.drop i⟩

/-- JS `s.trim()` (kernel-reducible implementation on the char list). -/
def jsTrim (s : String) : String :=
  let ws := fun c => c = ' ' || c = '\n' || c = '\t' || c = '\r'
  ⟨((s.data.dropWhile ws).reverse.dropWhile ws).reverse⟩

/-- `p.replace(/\/$/, '')`: strip one trailing slash. -/
def stripSlash (p : String) : String :=
  match h : p.data.getLast? with
  | some c => if c = '/' then ⟨p.data.dropLast⟩ else p
  | none => p

/-- `path.join(a, b)` for the absolute-path joins the route performs. -/
def pathJoin (a b : String) : String :=
  a ++ "/" ++ b

/-- `path.dirname(p)`: everything before the last `/`. -/
def dirname (p : String) : String :=
  jsJoin '/' ((jsSplit '/' p).dropLast)

/-- JS truthiness of an optional string field (`undefined` and `""` are
falsy). -/
def jsTruthy : Option String → Bool
  | none => false
  | some s => s ≠ ""

/-! ## Naming convention (route.ts lines 58, 119–122, 843–855) -/

/-- `const VALID_TYPES = ['feat', 'bugs', 'fixes']` (route.ts line 58). -/
def VALID_TYPES : List String := ["feat", "bugs", "fixes"]

/-- `` const branchName = `${config.name}-${type}-${name}` `` (line 120). -/
def deriveBranchName (canonicalName type name : String) : String :=
  canonicalName ++ "-" ++ type ++ "-" ++ name

/-- Discovery's branch parser (GET, lines 845–855): require the
`{canonicalName}-` prefix, split the remainder on `-`, take the first token
as the change type (which must be recognized), rejoin the rest as the name. -/
def parseBranchName (canonicalName branch : String) : Option (String × String) :=
  if jsStartsWith branch (canonicalName ++ "-") then
    let typeAndName := jsSubstringFrom branch (canonicalName.length + 1)
    let parts := jsSplit '-' typeAndName
    if parts.length < 2 then none
    else
      let type := parts.headD ""
      if VALID_TYPES.contains type then
        some (type, jsJoin '-' (parts.drop 1))
      else none
  else none

/-! ## Lemmas about the string primitives -/

theorem splitAux_cons (c x : Char) (xs acc : List Char) :
    splitAux c (x :: xs) acc =
      if x = c then acc.reverse :: splitAux c xs [] else splitAux c xs (x :: acc) := rfl

theorem joinChar_cons_cons (c : Char) (x y : List Char) (ys : List (List Char)) :
    joinChar c (x :: y :: ys) = x ++ c :: joinChar c (y :: ys) := rfl

theorem splitAux_ne_nil (c : Char) (l acc : List Char) : splitAux c l acc ≠ [] := by
  induction l generalizing acc with
  | nil => simp [splitAux]
  | cons x xs ih =>
    rw [splitAux_cons]
    split
    · simp
    · exact ih _

theorem joinChar_splitAux (c : Char) (l acc : List Char) :
    joinChar c (splitAux c l acc) = acc.reverse ++ l := by
  induction l generalizing acc with
  | nil => simp [splitAux, joinChar]
  | cons x xs ih =>
    rw [splitAux_cons]
    by_cases hx : x = c
    · rw [if_pos hx]
      obtain ⟨y, ys, hys⟩ : ∃ y ys, splitAux c xs [] = y :: ys := by
        cases h : splitAux c xs [] with
        | nil => exact absurd h (splitAux_ne_nil c xs [])
        | cons y ys => exact ⟨y, ys, rfl⟩
      have hxs := ih ([] : List Char)
      rw [hys] at hxs ⊢
      rw [joinChar_cons_cons, hxs]
      simp [hx]
    · rw [if_neg hx, ih (x :: acc)]
      simp

theorem splitAux_append_sep (c : Char) (t rest acc : List Char)
    (ht : ∀ ch ∈ t, ch ≠ c) :
    splitAux c (t ++ c :: rest) acc = (acc.reverse ++ t) :: splitAux c rest [] := by
  induction t generalizing acc with
  | nil => simp [splitAux]
  | cons x xs ih =>
    have hx : x ≠ c := ht x (by simp)
    rw [List.cons_append, splitAux_cons, if_neg hx,
      ih (x :: acc) (fun ch hch => ht ch (by simp [hch]))]
    simp

/-! ## The state model

The route drives two kinds of state: the filesystem (seen from the
container) and, per configured repository clone, git's branch and worktree
registry.  `git` itself is the external authority; its commands are modelled
as functions on this state with their documented success conditions.  An
append-only event log records every mutating operation the route performs,
so that read-only-ness and "never deletes" claims can be stated directly. -/

inductive FsNode where
  | dir : FsNode
  | file (content : String) : FsNode
deriving Repr, DecidableEq

abbrev Fs := List (String × FsNode)

/-- Association-list lookup with string keys (first match). -/
def alookup {α : Type} : List (String × α) → String → Option α
  | [], _ => none
  | (k, v) :: t, key => if k = key then some v else alookup t key

/-- Association-list update: replace the first binding or append. -/
def aset {α : Type} : List (String × α) → String → α → List (String × α)
  | [], k, v => [(k, v)]
  | (k₁, v₁) :: t, k, v => if k₁ = k then (k, v) :: t else (k₁, v₁) :: aset t k v

def existsSyncB (fs : Fs) (p : String) : Bool := (alookup fs p).isSome

/-- `statSync(p).isDirectory()` guarded by existence. -/
def isDirB (fs : Fs) (p : String) : Bool :=
  match alookup fs p with
  | some .dir => true
  | _ => false

/-- `q` is the path `root` itself or lies strictly below it. -/
def pathUnder (root q : String) : Bool :=
  q == root || jsStartsWith q (root ++ "/")

/-- `rmSync(p, {recursive: true})` on the flat path map: drop the subtree. -/
def fsRemoveTree (fs : Fs) (p : String) : Fs :=
  fs.filter (fun e => !(pathUnder p e.1))

/-- `readdirSync(p, {withFileTypes: true})`: the immediate children of `p`. -/
def childNames (fs : Fs) (p : String) : List (String × FsNode) :=
  fs.filterMap (fun e =>
    if jsStartsWith e.1 (p ++ "/") then
      let rest := jsSubstringFrom e.1 (p.length + 1)
      if (jsSplit '/' rest).length == 1 && rest != "" then some (rest, e.2) else none
    else none)

/-- One line of `git worktree list`: path, optional `[branch]`, `prunable`
marker. -/
structure WtEntry where
  path : String
  branch : Option String
  prunable : Bool
deriving Repr, DecidableEq

/-- The git-visible state of one repository clone. -/
structure GitRepo where
  localBranches : List String
  remoteBranches : List String
  head : String
  worktrees : List WtEntry
deriving Repr, DecidableEq

/-- What `git clone` would produce for a repository: the remote's branches
and the branch checked out after a fresh clone. -/
structure RemoteRepo where
  branches : List String
  defaultBranch : String
deriving Repr, DecidableEq

/-- Mutations the route can perform, for frame/read-only claims. -/
inductive Event where
  | mkdirTree (p : String)
  | rmTree (p : String)
  | gitClone (repoName : String)
  | wtAdd (p b : String)
  | wtRemove (p : String)
  | wtPrune (repoName : String)
  | fileWrite (p : String)
deriving Repr, DecidableEq

structure World where
  fs : Fs
  repos : List (String × GitRepo)
  remotes : List (String × RemoteRepo)
  heads : List (String × String)
  tokenAvailable : Bool
  fetchFails : Bool
  rmFails : List String
  events : List Event
deriving Repr, DecidableEq

/-- One entry of `REPO_MAP` (route.ts lines 19–48). -/
structure RepoCfg where
  name : String
  url : String
deriving Repr, DecidableEq

/-- The externally-supplied configuration: repository map and root paths
(`ROOT_DIR`, `HOST_ROOT_DIR`, `WORKTREE_ROOT`, lines 50–63). -/
structure Config where
  repoMap : List (String × RepoCfg)
  rootDir : String
  hostRootDir : String
  worktreeRoot : String
deriving Repr, DecidableEq

/-- Lookup accepting a repo name (via `REPO_NAME_MAP`, where later entries
overwrite earlier ones) or a repo key (lines 103–117, 1199–1210). -/
def resolveRepoIdent (cfg : Config) (repo : String) : Option (String × RepoCfg) :=
  match cfg.repoMap.reverse.find? (fun e => e.2.name == repo) with
  | some (key, rc) => some (key, rc)
  | none =>
    match alookup cfg.repoMap repo with
    | some rc => some (repo, rc)
    | none => none

/-- The `normalizePath` helper (lines 226–232, 384–390, 799–805,
1030–1036): strip one trailing slash, then rewrite the first host-root
occurrence to the container root when the two roots differ. -/
def normalizeP (cfg : Config) (p : String) : String :=
  let n := stripSlash p
  if jsIncludes n cfg.hostRootDir && (cfg.rootDir != cfg.hostRootDir) then
    jsReplaceFirst n cfg.hostRootDir cfg.rootDir
  else n

/-- Host→container conversion without slash-stripping (lines 814–816). -/
def toContainer (cfg : Config) (p : String) : String :=
  if jsIncludes p cfg.hostRootDir && (cfg.rootDir != cfg.hostRootDir) then
    jsReplaceFirst p cfg.hostRootDir cfg.rootDir
  else p

def getRepo (w : World) (name : String) : Option GitRepo := alookup w.repos name

def setRepo (w : World) (name : String) (r : GitRepo) : World :=
  { w with repos := aset w.repos name r }

def updateRepo (w : World) (name : String) (f : GitRepo → GitRepo) : World :=
  match getRepo w name with
  | none => w
  | some r => setRepo w name (f r)

def logEv (w : World) (e : Event) : World := { w with events := w.events ++ [e] }

/-- `mkdirSync(p, {recursive: true})`. -/
def mkdirp (w : World) (p : String) : World :=
  if existsSyncB w.fs p then w
  else logEv { w with fs := w.fs ++ [(p, .dir)] } (.mkdirTree p)

/-- `rmSync(p, {recursive: true, force: true})`; paths in `rmFails` model a
filesystem-level failure (e.g. permission denied). -/
def rmTreeW (w : World) (p : String) : Except String World :=
  if w.rmFails.contains p then .error ("EACCES: permission denied, rmdir " ++ p)
  else
    .ok (logEv
      { w with
        fs := fsRemoveTree w.fs p,
        heads := w.heads.filter (fun e => !(pathUnder p e.1)) }
      (.rmTree p))

/-- `writeFileSync(p, content)` (all call sites write existing files). -/
def fsWriteW (w : World) (p content : String) : World :=
  logEv { w with fs := aset w.fs p (.file content) } (.fileWrite p)

/-- `readFileSync(p, 'utf-8')`, `none` when it would throw. -/
def readFileW (w : World) (p : String) : Option String :=
  match alookup w.fs p with
  | some (.file c) => some c
  | _ => none

/-- `git worktree list` run in a clone: the main-tree line followed by the
registered worktrees; fails when the clone's git state is absent. -/
def wtList (w : World) (repoPath rcName : String) : Option (List WtEntry) :=
  match getRepo w rcName with
  | none => none
  | some r => some (⟨repoPath, some r.head, false⟩ :: r.worktrees)

/-- `git show-ref --verify --quiet refs/heads/<b>` as a boolean. -/
def showRefLocal (w : World) (rcName b : String) : Bool :=
  match getRepo w rcName with
  | some r => r.localBranches.contains b
  | none => false

/-- `git checkout b`: succeeds iff `b` is a local branch. -/
def checkoutBr (r : GitRepo) (b : String) : Option GitRepo :=
  if r.localBranches.contains b then some { r with head := b } else none

/-- `git checkout -b b origin/b`: succeeds iff `b` is not local but exists
on the remote; creates the local tracking branch and checks it out. -/
def checkoutTrack (r : GitRepo) (b : String) : Option GitRepo :=
  if !(r.localBranches.contains b) && r.remoteBranches.contains b then
    some { r with localBranches := r.localBranches ++ [b], head := b }
  else none

/-- `git checkout -b b` from the current HEAD. -/
def checkoutNew (r : GitRepo) (b : String) : Option GitRepo :=
  if !(r.localBranches.contains b) then
    some { r with localBranches := r.localBranches ++ [b], head := b }
  else none

/-- The character class `[A-Za-z0-9_-]` of the UI's branch-name pattern. -/
def nameCharOK (c : Char) : Bool :=
  ('A' ≤ c && c ≤ 'Z') || ('a' ≤ c && c ≤ 'z') || ('0' ≤ c && c ≤ '9') ||
    c = '_' || c = '-'

theorem deriveBranchName_data (canonicalName type name : String) :
    (deriveBranchName canonicalName type name).data =
      (canonicalName.data ++ ['-']) ++ (type.data ++ '-' :: name.data) := by
  simp [deriveBranchName, String.data_append]

/-- The derived branch name always contains a hyphen, so it is never one of
the plain integration branches `dev`, `main`, `master`. -/
theorem deriveBranchName_ne_defaults (canonicalName type name : String) :
    deriveBranchName canonicalName type name ≠ "dev" ∧
    deriveBranchName canonicalName type name ≠ "main" ∧
    deriveBranchName canonicalName type name ≠ "master" := by
  have hmem : '-' ∈ (deriveBranchName canonicalName type name).data := by
    rw [deriveBranchName_data]
    simp
  refine ⟨?_, ?_, ?_⟩ <;> intro h <;> rw [h] at hmem <;> exact absurd hmem (by decide)

/-! ## The create pipeline (`createWorktreeForRepo`, route.ts lines 96–756) -/

/-- Success payload returned at lines 742–752. -/
structure WorktreeInfo where
  repo : String
  repoName : String
  type : String
  name : String
  branch : String
  path : String
deriving Repr, DecidableEq

/-- The `PathConflict` message of the primary-clone guard (line 146). -/
def pathConflictMsg (p : String) : String :=
  "Path " ++ p ++ " conflicts with an existing repository directory. Please use a different branch name."

/-- The `BranchMismatch` message (line 272). -/
def branchMismatchMsg (p existing : String) : String :=
  "A worktree already exists at " ++ p ++ " with a different branch (" ++ existing ++
    "). Please use a different name."

/-- Clone-if-absent (lines 156–171): fatal when no token is available or
the clone itself fails; a fresh clone has exactly the remote's default
branch checked out and an empty worktree registry. -/
def ensureCloned (cfg : Config) (w : World) (rc : RepoCfg) : Except String World :=
  let repoPath := pathJoin cfg.rootDir rc.name
  if !(existsSyncB w.fs repoPath) || !(existsSyncB w.fs (pathJoin repoPath ".git")) then
    if !w.tokenAvailable then
      .error "GITHUB_TOKEN not found. Please set GITHUB_TOKEN environment variable or create a token file."
    else
      match alookup w.remotes rc.name with
      | none => .error ("fatal: could not read from remote repository " ++ rc.url)
      | some rem =>
        .ok (logEv
          { w with
            fs := aset (aset w.fs repoPath .dir) (pathJoin repoPath ".git") .dir,
            repos := aset w.repos rc.name ⟨[rem.defaultBranch], rem.branches, rem.defaultBranch, []⟩ }
          (.gitClone rc.name))
  else .ok w

/-- The advisory integration-branch dance (lines 175–204): check out `dev`,
else track `origin/dev`, else check out or track `main` and branch `dev`
from it, else the same via `master`; every failure is swallowed. -/
def ensureDevDance (r : GitRepo) : GitRepo :=
  match checkoutBr r "dev" with
  | some r1 => r1
  | none =>
    match checkoutTrack r "dev" with
    | some r1 => r1
    | none =>
      match (match checkoutBr r "main" with
             | some r1 => some r1
             | none => checkoutTrack r "main") with
      | some r2 => (checkoutNew r2 "dev").getD r2
      | none =>
        match (match checkoutBr r "master" with
               | some r1 => some r1
               | none => checkoutTrack r "master") with
        | some r2 => (checkoutNew r2 "dev").getD r2
        | none => r

/-- `git worktree remove <p> --force` (succeeds for a registered,
non-prunable worktree; removes the registration and the directory). -/
def wtRemoveCmd (w : World) (rcName p : String) : Except String World :=
  match getRepo w rcName with
  | none => .error "fatal: not a git repository"
  | some r =>
    match r.worktrees.find? (fun e => e.path == p) with
    | none => .error ("fatal: '" ++ p ++ "' is not a working tree")
    | some e =>
      if e.prunable then
        .error ("fatal: validation failed, cannot remove working tree: " ++ p)
      else
        let w1 := setRepo w rcName { r with worktrees := r.worktrees.filter (fun x => !(x.path == p)) }
        .ok (logEv
          { w1 with
            fs := fsRemoveTree w1.fs p,
            heads := w1.heads.filter (fun e => !(pathUnder p e.1)) }
          (.wtRemove p))

/-- `git worktree prune`: drop every prunable registration (metadata only). -/
def wtPruneCmd (w : World) (rcName : String) : World :=
  logEv (updateRepo w rcName (fun r => { r with worktrees := r.worktrees.filter (fun e => !e.prunable) }))
    (.wtPrune rcName)

/-- The last `/`-separated component of a path (git's worktree id). -/
def lastComponent (p : String) : String :=
  (jsSplit '/' p).getLastD ""

/-- `git worktree add` (line 583–585 forms): requires the target path to be
absent and not already registered, the branch to exist (plain form) or not
exist with an existing base (`-b` form), and the branch to be checked out
nowhere.  Creates the directory, the `.git` pointer file, the
`.git/worktrees/<id>` metadata, and the registration. -/
def wtAddCmd (cfg : Config) (w : World) (rcName p branch : String) (newBranch : Bool)
    (base : String) : Except String World :=
  match getRepo w rcName with
  | none => .error "fatal: not a git repository"
  | some r =>
    if existsSyncB w.fs p then .error ("fatal: '" ++ p ++ "' already exists")
    else if r.worktrees.any (fun e => e.path == p) then
      .error ("fatal: '" ++ p ++ "' is a missing but already registered worktree")
    else if newBranch && r.localBranches.contains branch then
      .error ("fatal: a branch named '" ++ branch ++ "' already exists")
    else if newBranch && !(r.localBranches.contains base) then
      .error ("fatal: invalid reference: " ++ base)
    else if !newBranch && !(r.localBranches.contains branch) then
      .error ("fatal: invalid reference: " ++ branch)
    else if r.head == branch || r.worktrees.any (fun e => e.branch == some branch) then
      .error ("fatal: '" ++ branch ++ "' is already checked out")
    else
      let repoPath := pathJoin cfg.rootDir rcName
      let metaDir := pathJoin (pathJoin repoPath ".git") "worktrees"
      let wtid := lastComponent p
      let entryDir := pathJoin metaDir wtid
      let fs1 := aset (aset w.fs p .dir) (pathJoin p ".git") (.file ("gitdir: " ++ entryDir))
      let fs2 := aset (aset (aset fs1 metaDir .dir) entryDir .dir)
        (pathJoin entryDir "gitdir") (.file (p ++ "/.git"))
      let r1 := { r with
        localBranches := if newBranch then r.localBranches ++ [branch] else r.localBranches,
        worktrees := r.worktrees ++ [⟨p, some branch, false⟩] }
      .ok (logEv
        { setRepo w rcName r1 with fs := fs2, heads := aset w.heads p branch }
        (.wtAdd p branch))

/-- `git rev-parse --abbrev-ref HEAD` run in `dir`: the main clone's HEAD
when `dir` is a configured clone, else the worktree's checked-out branch
provided its `.git` pointer file is intact. -/
def revParseHeadCmd (cfg : Config) (w : World) (dir : String) : Option String :=
  match w.repos.find? (fun e => pathJoin cfg.rootDir e.1 == dir) with
  | some (_, r) => some r.head
  | none =>
    match alookup w.fs (pathJoin dir ".git") with
    | some (.file _) => alookup w.heads dir
    | _ => none

/-- The existing-directory reconciliation block (lines 218–321): if the
target directory exists, look it up in `git worktree list` by normalized
path; same-branch registrations are force-removed (the "replace"),
different-branch ones fail with `BranchMismatch`; an unregistered directory
is removed unless its `.git` entry is a directory (a primary clone). -/
def existingPathStep (cfg : Config) (w : World) (rcName repoPath branchName worktreePath : String) :
    Except (String × World) World :=
  if !(existsSyncB w.fs worktreePath) then .ok w
  else
    match wtList w repoPath rcName with
    | some entries =>
      let normalizedTarget := normalizeP cfg worktreePath
      match entries.find? (fun e => normalizeP cfg e.path == normalizedTarget) with
      | some e =>
        let existingBranch := e.branch.getD ""
        if existingBranch == branchName then
          match wtRemoveCmd w rcName worktreePath with
          | .ok w1 => .ok w1
          | .error _ =>
            match rmTreeW w worktreePath with
            | .ok w1 => .ok w1
            | .error msg => .error ("Failed to remove existing worktree: " ++ msg, w)
        else .error (branchMismatchMsg worktreePath existingBranch, w)
      | none =>
        if isDirB w.fs (pathJoin worktreePath ".git") then
          .error ("Cannot remove directory at " ++ worktreePath ++
            " - it appears to be a main repository. Please use a different branch name.", w)
        else
          match rmTreeW w worktreePath with
          | .ok w1 => .ok w1
          | .error msg =>
            .error ("Directory exists at " ++ worktreePath ++ " and could not be removed: " ++ msg, w)
    | none =>
      if isDirB w.fs (pathJoin worktreePath ".git") then
        .error ("Cannot use path " ++ worktreePath ++
          " - it is a main repository directory. Please use a different branch name.", w)
      else
        match rmTreeW w worktreePath with
        | .ok w1 => .ok w1
        | .error msg =>
          .error ("Directory exists at " ++ worktreePath ++ " and could not be removed: " ++ msg, w)

/-- Prune then sweep prunable entries whose path mentions the target branch
or path (lines 325–361); every failure is swallowed. -/
def pruneScanStep (w : World) (rcName repoPath branchName worktreePath : String) : World :=
  let w1 := wtPruneCmd w rcName
  match wtList w1 repoPath rcName with
  | none => w1
  | some entries =>
    entries.foldl (fun acc e =>
      if e.prunable && (jsIncludes e.path branchName || e.path == worktreePath) then
        match wtRemoveCmd acc rcName e.path with
        | .ok a => a
        | .error _ => wtPruneCmd acc rcName
      else acc) w1

/-- Switch the main clone off the target branch (lines 363–379 and
502–518): `dev`, else `main`, else `master`; failures swallowed. -/
def headSwitchAway (w : World) (rcName branchName : String) : World :=
  match getRepo w rcName with
  | none => w
  | some r =>
    if r.head == branchName then
      match checkoutBr r "dev" with
      | some r1 => setRepo w rcName r1
      | none =>
        match checkoutBr r "main" with
        | some r1 => setRepo w rcName r1
        | none =>
          match checkoutBr r "master" with
          | some r1 => setRepo w rcName r1
          | none => w
    else w

/-- One iteration of the same-branch-elsewhere eviction loop
(lines 393–496). -/
def evictEntry (cfg : Config) (rcName repoPath branchName worktreePath : String)
    (acc : World) (e : WtEntry) : Except (String × World) World :=
  if e.branch == some branchName then
    if stripSlash e.path == stripSlash repoPath then .ok acc
    else
      let normalizedExisting := normalizeP cfg e.path
      if normalizedExisting != normalizeP cfg worktreePath then
        match wtRemoveCmd acc rcName e.path with
        | .ok a =>
          let still :=
            match wtList a repoPath rcName with
            | some l => l.any (fun x => normalizeP cfg x.path == normalizedExisting)
            | none => false
          if still then
            let a1 := wtPruneCmd a rcName
            if existsSyncB a1.fs e.path then
              match rmTreeW a1 e.path with
              | .ok a2 => .ok a2
              | .error _ =>
                if e.prunable then .ok (wtPruneCmd a1 rcName)
                else
                  .error ("Failed to remove conflicting worktree at " ++ e.path ++
                    ". Please remove it manually and try again.", a1)
            else .ok a1
          else .ok a
        | .error _ =>
          if e.prunable then .ok (wtPruneCmd acc rcName)
          else
            if existsSyncB acc.fs e.path then
              match rmTreeW acc e.path with
              | .ok a => .ok a
              | .error _ =>
                .error ("Failed to remove conflicting worktree at " ++ e.path ++
                  ". Please remove it manually and try again.", acc)
            else .ok acc
      else .ok acc
  else .ok acc

/-- The eviction pass over the `git worktree list` snapshot (lines
381–496); a failing list command is swallowed (line 497). -/
def evictStep (cfg : Config) (w : World) (rcName repoPath branchName worktreePath : String) :
    Except (String × World) World :=
  match wtList w repoPath rcName with
  | none => .ok w
  | some entries => entries.foldlM (evictEntry cfg rcName repoPath branchName worktreePath) w

/-- Base-ref resolution (lines 534–578).  When the target branch exists the
result is unused by the add command; otherwise: a truthy caller hint that
exists locally, or remotely (materializing a tracking branch), else the
literal `'dev'`; with no hint, autodetect `dev → main → master`, defaulting
to `'dev'`. -/
def resolveBaseStep (r : GitRepo) (branchName : String) (branchExists : Bool)
    (baseBranch : Option String) : String × GitRepo :=
  if branchExists then (branchName, r)
  else
    if jsTruthy baseBranch then
      let hint := baseBranch.getD ""
      if r.localBranches.contains hint then (hint, r)
      else if r.remoteBranches.contains hint then
        match checkoutTrack r hint with
        | some r1 => (hint, r1)
        | none => (hint, r)
      else ("dev", r)
    else
      if r.localBranches.contains "dev" then ("dev", r)
      else if r.localBranches.contains "main" then ("main", r)
      else if r.localBranches.contains "master" then ("master", r)
      else ("dev", r)

/-- Rewrite the fresh worktree's `.git` pointer file from host to container
form (lines 603–618); advisory. -/
def postAddGitFileFix (cfg : Config) (w : World) (worktreePath : String) : World :=
  let gitFile := pathJoin worktreePath ".git"
  if existsSyncB w.fs gitFile then
    match readFileW w gitFile with
    | some content0 =>
      let c := jsTrim content0
      if jsIncludes c cfg.hostRootDir && (cfg.rootDir != cfg.hostRootDir) then
        fsWriteW w gitFile (jsReplaceFirst c cfg.hostRootDir cfg.rootDir ++ "\n")
      else w
    | none => w
  else w

/-- Rewrite matching `gitdir` files under `.git/worktrees/*` to container
form (lines 682–717); advisory. -/
def gitdirMetaFix (cfg : Config) (w : World) (repoPath worktreePath branchName : String) : World :=
  let worktreesDir := pathJoin (pathJoin repoPath ".git") "worktrees"
  if existsSyncB w.fs worktreesDir then
    (childNames w.fs worktreesDir).foldl (fun acc entry =>
      match entry.2 with
      | .file _ => acc
      | .dir =>
        let gitdirFile := pathJoin (pathJoin worktreesDir entry.1) "gitdir"
        if existsSyncB acc.fs gitdirFile then
          match readFileW acc gitdirFile with
          | some content0 =>
            let content := jsTrim content0
            if jsIncludes content worktreePath || jsIncludes content branchName then
              let content1 :=
                if jsIncludes content cfg.hostRootDir && (cfg.rootDir != cfg.hostRootDir) then
                  let containerPath := jsReplaceFirst content cfg.hostRootDir cfg.rootDir
                  if existsSyncB acc.fs containerPath then containerPath else content
                else content
              if content1 != content then fsWriteW acc gitdirFile (content1 ++ "\n") else acc
            else acc
          | none => acc
        else acc) w
  else w

/-- `createWorktreeForRepo` after repository resolution (lines 119–755). -/
def createResolved (cfg : Config) (w0 : World) (repoKey : String) (rc : RepoCfg)
    (type name : String) (baseBranch : Option String) : Except String WorktreeInfo × World :=
  let repoPath := pathJoin cfg.rootDir rc.name
  let branchName := deriveBranchName rc.name type name
  let worktreeDir := pathJoin cfg.worktreeRoot rc.name
  let worktreePath := pathJoin worktreeDir branchName
  let w1 := mkdirp w0 worktreeDir
  if existsSyncB w1.fs worktreePath && isDirB w1.fs (pathJoin worktreePath ".git") then
    (.error (pathConflictMsg worktreePath), w1)
  else
    match ensureCloned cfg w1 rc with
    | .error msg => (.error msg, w1)
    | .ok w2 =>
      let w3 := if w2.fetchFails then w2 else updateRepo w2 rc.name ensureDevDance
      let branchExists := showRefLocal w3 rc.name branchName
      match existingPathStep cfg w3 rc.name repoPath branchName worktreePath with
      | .error (msg, we) => (.error msg, we)
      | .ok w4 =>
        let w5 := pruneScanStep w4 rc.name repoPath branchName worktreePath
        let w6 := headSwitchAway w5 rc.name branchName
        match evictStep cfg w6 rc.name repoPath branchName worktreePath with
        | .error (msg, we) => (.error msg, we)
        | .ok w7 =>
          let w8 := headSwitchAway w7 rc.name branchName
          let w9 := mkdirp w8 (dirname worktreePath)
          let rb :=
            match getRepo w9 rc.name with
            | none => ("dev", w9)
            | some r =>
              let pr := resolveBaseStep r branchName branchExists baseBranch
              (pr.1, setRepo w9 rc.name pr.2)
          match wtAddCmd cfg rb.2 rc.name worktreePath branchName (!branchExists) rb.1 with
          | .error msg => (.error ("Failed to create worktree: " ++ msg), rb.2)
          | .ok w10 =>
            let w11 := postAddGitFileFix cfg w10 worktreePath
            let w12 := gitdirMetaFix cfg w11 repoPath worktreePath branchName
            (.ok ⟨repoKey, rc.name, type, name, branchName, worktreePath⟩, w12)

/-- `createWorktreeForRepo` (lines 96–756). -/
def createWorktreeForRepo (cfg : Config) (w : World) (repo type name : String)
    (baseBranch : Option String) : Except String WorktreeInfo × World :=
  match resolveRepoIdent cfg repo with
  | none => (.error ("Invalid repository: " ++ repo), w)
  | some (repoKey, rc) => createResolved cfg w repoKey rc type name baseBranch

/-! ## Discovery (`GET`, route.ts lines 758–1070) -/

/-- One element of the `GET` response's `worktrees` array. -/
structure DiscoveredWt where
  repo : String
  repoName : String
  type : String
  name : String
  branch : String
  path : String
  fullPath : String
deriving Repr, DecidableEq

/-- One `git worktree list` line of the git-registry pass (lines 783–887):
skip the main tree and prunable entries, dedup by normalized path, require
an existing directory whose `.git` entry is a file, parse the bracketed
branch by the naming convention, and prefer the worktree's actual HEAD. -/
def gitPassEntry (cfg : Config) (w : World) (repoKey : String) (rc : RepoCfg)
    (repoPath : String) (st : List DiscoveredWt × List String) (e : WtEntry) :
    List DiscoveredWt × List String :=
  let (acc, seen) := st
  if stripSlash e.path == stripSlash repoPath then st
  else if e.prunable then st
  else
    let normalized := normalizeP cfg e.path
    if seen.contains normalized then st
    else
      let containerPath := toContainer cfg e.path
      if !(existsSyncB w.fs containerPath) then st
      else
        match alookup w.fs (pathJoin containerPath ".git") with
        | some (.file _) =>
          match e.branch with
          | none => st
          | some branchName =>
            match parseBranchName rc.name branchName with
            | none => st
            | some (type, nm) =>
              match revParseHeadCmd cfg w containerPath with
              | some actual =>
                (acc ++ [⟨repoKey, rc.name, type, nm, actual, containerPath, containerPath⟩],
                 seen ++ [normalized])
              | none =>
                (acc ++ [⟨repoKey, rc.name, type, nm, branchName, containerPath, containerPath⟩],
                 seen ++ [normalized])
        | _ => st

/-- The git-registry pass over every configured repository (lines 773–891);
purely read-only. -/
def gitPass (cfg : Config) (w : World) : List DiscoveredWt × List String :=
  cfg.repoMap.foldl (fun st kv =>
    let repoPath := pathJoin cfg.rootDir kv.2.name
    if !(existsSyncB w.fs repoPath) || !(existsSyncB w.fs (pathJoin repoPath ".git")) then st
    else
      match wtList w repoPath kv.2.name with
      | none => st
      | some entries => entries.foldl (gitPassEntry cfg w kv.1 kv.2 repoPath) st)
    ([], [])

/-- `REPO_NAME_MAP[dirName]`, else the first `REPO_MAP` entry with a
matching name (lines 908–919). -/
def resolveByNameOnly (cfg : Config) (dirName : String) : Option (String × RepoCfg) :=
  match cfg.repoMap.reverse.find? (fun e => e.2.name == dirName) with
  | some (k, rc) => some (k, rc)
  | none => (cfg.repoMap.find? (fun e => e.2.name == dirName)).map (fun e => (e.1, e.2))

/-- The `.git` fix block of the filesystem pass (lines 976–999): when the
roots differ, rewrite a host-form pointer file to container form (to be
restored later) or a container-form one to host form (permanently).
Returns `(needsFix, original, world)`. -/
def gitFileFixState (cfg : Config) (w : World) (gitFile content : String) :
    Bool × String × World :=
  if cfg.rootDir != cfg.hostRootDir then
    if jsIncludes content cfg.hostRootDir then
      (true, content,
       fsWriteW w gitFile (jsReplaceAll content cfg.hostRootDir cfg.rootDir ++ "\n"))
    else if jsIncludes content cfg.rootDir then
      let fixed := jsReplaceAll content cfg.rootDir cfg.hostRootDir
      if fixed != content then (false, "", fsWriteW w gitFile (fixed ++ "\n"))
      else (false, "", w)
    else (false, "", w)
  else (false, "", w)

/-- The HEAD read of the filesystem pass (lines 1001–1018): on failure fall
back to the directory name and restore a temporarily fixed pointer file. -/
def wtHeadRead (cfg : Config) (w1 : World) (worktreePath gitFile branchName original : String)
    (needsFix : Bool) : String × World :=
  match revParseHeadCmd cfg w1 worktreePath with
  | some b => (b, w1)
  | none => (branchName, if needsFix then fsWriteW w1 gitFile (original ++ "\n") else w1)

/-- Fix block, HEAD read, and final restore (lines 976–1027) combined:
returns the reported branch and the resulting world. -/
def fsPassCore (cfg : Config) (w : World) (worktreePath gitFile branchName content : String) :
    String × World :=
  let fx := gitFileFixState cfg w gitFile content
  let hr := wtHeadRead cfg fx.2.2 worktreePath gitFile branchName fx.2.1 fx.1
  (hr.1, if fx.1 then fsWriteW hr.2 gitFile (fx.2.1 ++ "\n") else hr.2)

/-- One branch directory of the filesystem-structure pass (lines 927–1051):
parse the directory name by the naming convention, require a `.git` file,
and — when container and host roots differ — temporarily or permanently
rewrite that pointer file between the two root forms around the HEAD read. -/
def fsPassBranchDir (cfg : Config) (repoKey : String) (rc : RepoCfg) (repoDirPath : String)
    (st : List DiscoveredWt × List String × World) (entry : String × FsNode) :
    List DiscoveredWt × List String × World :=
  let (acc, seen, w) := st
  match entry.2 with
  | .file _ => st
  | .dir =>
    let branchName := entry.1
    let worktreePath := pathJoin repoDirPath branchName
    match parseBranchName rc.name branchName with
    | none => st
    | some (type, nm) =>
      let gitFile := pathJoin worktreePath ".git"
      match alookup w.fs gitFile with
      | some (.file content0) =>
        if !(existsSyncB w.fs (pathJoin cfg.rootDir rc.name)) then st
        else
          let pr := fsPassCore cfg w worktreePath gitFile branchName (jsTrim content0)
          let normalized := normalizeP cfg worktreePath
          if seen.contains normalized then (acc, seen, pr.2)
          else
            (acc ++ [⟨repoKey, rc.name, type, nm, pr.1, worktreePath, worktreePath⟩],
             seen ++ [normalized], pr.2)
      | _ => st

/-- One repository directory of the filesystem-structure pass
(lines 901–1056). -/
def fsPassRepoDir (cfg : Config) (st : List DiscoveredWt × List String × World)
    (repoEntry : String × FsNode) : List DiscoveredWt × List String × World :=
  match repoEntry.2 with
  | .file _ => st
  | .dir =>
    let repoDirPath := pathJoin cfg.worktreeRoot repoEntry.1
    match resolveByNameOnly cfg repoEntry.1 with
    | none => st
    | some (key, rc) =>
      (childNames st.2.2.fs repoDirPath).foldl (fsPassBranchDir cfg key rc repoDirPath) st

/-- `GET` (lines 758–1070): the git-registry pass merged with the
filesystem-structure pass, deduplicated by normalized path, first seen
wins. -/
def discover (cfg : Config) (w : World) : List DiscoveredWt × World :=
  let first := gitPass cfg w
  if existsSyncB w.fs cfg.worktreeRoot then
    let st := (childNames w.fs cfg.worktreeRoot).foldl (fsPassRepoDir cfg) (first.1, first.2, w)
    (st.1, st.2.2)
  else (first.1, w)

/-! ## `POST` (lines 1072–1173) and `DELETE` (lines 1175–1293) -/

structure PostResponse where
  status : Nat
  worktrees : List WorktreeInfo
  errors : List (String × String)
  errorMsg : Option String
deriving Repr, DecidableEq

/-- `POST`: validate, then create a worktree per requested repository,
collecting per-repository successes and failures; overall failure (500)
only when every repository failed.  The GitHub-Projects backlog calls
(lines 1139–1159) are external fire-and-forget collaborators and touch no
state modelled here. -/
def postCreate (cfg : Config) (w : World) (repos : List String) (type name : String)
    (baseBranches : List (String × String)) : PostResponse × World :=
  if repos.isEmpty || type == "" || name == "" then
    (⟨400, [], [], some "Missing required fields: repos (or repo), type, name"⟩, w)
  else if !(VALID_TYPES.contains type) then
    (⟨400, [], [], some "Invalid type. Must be one of: feat, bugs, fixes"⟩, w)
  else
    match repos.find? (fun rp => (resolveRepoIdent cfg rp).isNone) with
    | some rp => (⟨400, [], [], some ("Invalid repository: " ++ rp)⟩, w)
    | none =>
      let st := repos.foldl
        (fun (st : List WorktreeInfo × List (String × String) × World) rp =>
          let out := createWorktreeForRepo cfg st.2.2 rp type name (alookup baseBranches rp)
          match out.1 with
          | .ok wt => (st.1 ++ [wt], st.2.1, out.2)
          | .error e => (st.1, st.2.1 ++ [(rp, e)], out.2))
        ([], [], w)
      if st.1.isEmpty then
        (⟨500, [], st.2.1, some "Failed to create worktrees in all repositories"⟩, st.2.2)
      else (⟨200, st.1, st.2.1, none⟩, st.2.2)

structure DeleteResponse where
  status : Nat
  message : Option String
  error : Option String
deriving Repr, DecidableEq

/-- A `try { … } catch { /* keep going */ }` around a state-changing git
command: keep the new state on success, the old one on failure. -/
def recoverW : Except String World → World → World
  | .ok a, _ => a
  | .error _, w => w

/-- `DELETE`: validate, resolve, use the explicit `path` field when truthy
else the identity-derived path, require the directory and the clone to
exist, attempt `git worktree remove --force` (failure absorbed), then
remove the directory if still present — only that removal failing fails the
operation.  The GitHub-Projects card teardown (lines 1256–1274) is external
and advisory. -/
def deleteWorktree (cfg : Config) (w : World) (repo type name : String)
    (pathField : Option String) : DeleteResponse × World :=
  if repo == "" || type == "" || name == "" then
    (⟨400, none, some "Missing required fields: repo, type, name"⟩, w)
  else if !(VALID_TYPES.contains type) then
    (⟨400, none, some "Invalid type. Must be one of: feat, bugs, fixes"⟩, w)
  else
    match resolveRepoIdent cfg repo with
    | none => (⟨400, none, some ("Invalid repository: " ++ repo)⟩, w)
    | some kv =>
      let rc := kv.2
      let repoPath := pathJoin cfg.rootDir rc.name
      let branchName := deriveBranchName rc.name type name
      let fullWorktreePath :=
        if jsTruthy pathField then pathField.getD ""
        else pathJoin (pathJoin cfg.worktreeRoot rc.name) branchName
      if !(existsSyncB w.fs fullWorktreePath) then
        (⟨404, none, some ("Working tree not found at " ++ fullWorktreePath)⟩, w)
      else if !(existsSyncB w.fs repoPath) || !(existsSyncB w.fs (pathJoin repoPath ".git")) then
        (⟨404, none, some ("Repository not found at " ++ repoPath)⟩, w)
      else
        let w1 := recoverW (wtRemoveCmd w rc.name fullWorktreePath) w
        if existsSyncB w1.fs fullWorktreePath then
          match rmTreeW w1 fullWorktreePath with
          | .ok w2 => (⟨200, some "Working tree deleted successfully", none⟩, w2)
          | .error msg => (⟨500, none, some ("Failed to remove directory: " ++ msg)⟩, w1)
        else (⟨200, some "Working tree deleted successfully", none⟩, w1)

/-! ## Concrete example configuration and worlds -/

/-- A one-repository configuration with coinciding container and host
roots. -/
def exCfg : Config :=
  ⟨[("alpha-key", ⟨"alpha", "https://github.com/org/alpha"⟩)], "/repos", "/repos", "/repos/Tree"⟩

/-- A world with the `alpha` clone present on `dev` and no worktrees. -/
def exWorld : World :=
  { fs := [("/repos", .dir), ("/repos/alpha", .dir), ("/repos/alpha/.git", .dir)],
    repos := [("alpha", ⟨["dev"], ["dev"], "dev", []⟩)],
    remotes := [("alpha", ⟨["dev"], "dev"⟩)],
    heads := [], tokenAvailable := true, fetchFails := false, rmFails := [], events := [] }

/-! ## Basic lemmas about the state primitives -/

theorem alookup_cons {α : Type} (k : String) (v : α) (t : List (String × α)) (p : String) :
    alookup ((k, v) :: t) p = if k = p then some v else alookup t p := rfl

theorem alookup_append_of_isSome {α : Type} (fs l : List (String × α)) (p : String)
    (h : (alookup fs p).isSome) : alookup (fs ++ l) p = alookup fs p := by
  induction fs with
  | nil => simp [alookup] at h
  | cons e t ih =>
    obtain ⟨k, v⟩ := e
    rw [List.cons_append, alookup_cons, alookup_cons]
    split
    · rfl
    · rename_i hk
      rw [alookup_cons, if_neg hk] at h
      exact ih h

theorem mkdirp_repos (w : World) (p : String) : (mkdirp w p).repos = w.repos := by
  unfold mkdirp logEv
  split <;> rfl

theorem mkdirp_heads (w : World) (p : String) : (mkdirp w p).heads = w.heads := by
  unfold mkdirp logEv
  split <;> rfl

theorem mkdirp_fs_mono (w : World) (p : String) (e : String × FsNode) (he : e ∈ w.fs) :
    e ∈ (mkdirp w p).fs := by
  unfold mkdirp logEv
  split
  · exact he
  · exact List.mem_append_left _ he

theorem alookup_mkdirp_of_isSome (w : World) (p q : String)
    (h : (alookup w.fs q).isSome) : alookup (mkdirp w p).fs q = alookup w.fs q := by
  unfold mkdirp logEv
  split
  · rfl
  · exact alookup_append_of_isSome w.fs _ q h

theorem existsSyncB_mkdirp_of_exists (w : World) (p q : String)
    (h : existsSyncB w.fs q = true) : existsSyncB (mkdirp w p).fs q = true := by
  unfold existsSyncB at *
  rw [alookup_mkdirp_of_isSome w p q h]
  exact h

theorem alookup_fsRemoveTree_self (fs : Fs) (p : String) :
    alookup (fsRemoveTree fs p) p = none := by
  induction fs with
  | nil => rfl
  | cons e t ih =>
    unfold fsRemoveTree at ih ⊢
    rw [List.filter_cons]
    split
    · rename_i hkeep
      obtain ⟨k, v⟩ := e
      have hk : k ≠ p := by
        intro hq
        subst hq
        simp [pathUnder] at hkeep
      rw [alookup_cons, if_neg hk]
      exact ih
    · exact ih

/-! ## Claim C4: round-trip of the naming convention -/

theorem parse_derive_of_no_hyphen (canonicalName type name : String)
    (ht : ∀ ch ∈ type.data, ch ≠ '-') (hc : VALID_TYPES.contains type = true) :
    parseBranchName canonicalName (deriveBranchName canonicalName type name) =
      some (type, name) := by
  have hdata := deriveBranchName_data canonicalName type name
  have hstart : jsStartsWith (deriveBranchName canonicalName type name)
      (canonicalName ++ "-") = true := by
    unfold jsStartsWith
    rw [hdata]
    have hpx : (canonicalName ++ "-").data = canonicalName.data ++ ['-'] := by
      simp [String.data_append]
    rw [hpx]
    exact List.isPrefixOf_iff_prefix.mpr (List.prefix_append _ _)
  unfold parseBranchName
  rw [hstart, if_pos rfl]
  have hsub : jsSubstringFrom (deriveBranchName canonicalName type name)
      (canonicalName.length + 1) = ⟨type.data ++ '-' :: name.data⟩ := by
    unfold jsSubstringFrom
    rw [hdata]
    have hlen : canonicalName.length + 1 = (canonicalName.data ++ ['-']).length := by
      simp
    rw [hlen, List.drop_left]
  have hsplit : jsSplit '-' (⟨type.data ++ '-' :: name.data⟩ : String) =
      (⟨type.data⟩ : String) :: (splitAux '-' name.data []).map (fun l => ⟨l⟩) := by
    unfold jsSplit
    rw [show (⟨type.data ++ '-' :: name.data⟩ : String).data = type.data ++ '-' :: name.data from rfl]
    rw [splitAux_append_sep '-' type.data name.data [] ht]
    simp
  have hne := splitAux_ne_nil '-' name.data []
  have hlenge : ¬(((⟨type.data⟩ : String) :: (splitAux '-' name.data []).map
      (fun l => (⟨l⟩ : String))).length < 2) := by
    have := List.length_pos.mpr hne
    simp only [List.length_cons, List.length_map]
    omega
  have htype : ((⟨type.data⟩ : String) :: (splitAux '-' name.data []).map
      (fun l => (⟨l⟩ : String))).headD "" = type := rfl
  have hjoin : jsJoin '-' (((⟨type.data⟩ : String) :: (splitAux '-' name.data []).map
      (fun l => (⟨l⟩ : String))).drop 1) = name := by
    unfold jsJoin
    simp only [List.drop_succ_cons, List.drop_zero, List.map_map]
    have hmm : ((splitAux '-' name.data []).map
        ((fun s => String.data s) ∘ (fun l => (⟨l⟩ : String)))) = splitAux '-' name.data [] := by
      induction splitAux '-' name.data [] with
      | nil => rfl
      | cons a t ih => simp only [List.map_cons, ih, Function.comp]
    rw [hmm, joinChar_splitAux]
    rfl
  simp only [hsub, hsplit, if_neg hlenge, htype, hc, hjoin]
  simp

/-- C4: for every canonical name, recognized change type (none of which
contains a hyphen), and non-empty name over `[A-Za-z0-9_-]`, Discovery's
parser applied to the identity's derived branch string recovers exactly the
original `(changeType, name)`. -/
theorem c4_roundtrip (canonicalName type name : String)
    (hty : type ∈ VALID_TYPES) (hne : name ≠ "")
    (hchars : ∀ ch ∈ name.data, nameCharOK ch = true) :
    parseBranchName canonicalName (deriveBranchName canonicalName type name) =
      some (type, name) := by
  have hty3 : type = "feat" ∨ type = "bugs" ∨ type = "fixes" := by
    simpa [VALID_TYPES] using hty
  rcases hty3 with h | h | h <;> subst h <;>
    exact parse_derive_of_no_hyphen _ _ _ (by decide) (by decide)

/-- Witness for C4 at a concrete identity. -/
theorem c4_roundtrip_witness :
    parseBranchName "sideline-frontend"
      (deriveBranchName "sideline-frontend" "feat" "test-1") = some ("feat", "test-1") :=
  c4_roundtrip "sideline-frontend" "feat" "test-1" (by decide) (by decide) (by decide)

/-! ## Claim C6: the recognized change-type set -/

/-- C6 counterexample: the recognized set is not `{feature, bugfix, fix,
qa}` — none of those four strings is in `VALID_TYPES`, while `feat` is. -/
theorem c6_claimed_set_refuted :
    VALID_TYPES ≠ ["feature", "bugfix", "fix", "qa"] ∧
    "feature" ∉ VALID_TYPES ∧ "bugfix" ∉ VALID_TYPES ∧ "fix" ∉ VALID_TYPES ∧
    "qa" ∉ VALID_TYPES ∧ "feat" ∈ VALID_TYPES := by decide

theorem parseBranchName_type_mem (canonicalName branch t n : String)
    (h : parseBranchName canonicalName branch = some (t, n)) : t ∈ VALID_TYPES := by
  simp only [parseBranchName] at h
  split_ifs at h with h1 h2 h3
  · rw [Option.some_inj] at h
    have ht := congrArg Prod.fst h
    simp only at ht
    rw [← ht]
    simpa using h3

/-- C6 (amended): the recognized change-type set is exactly
`{feat, bugs, fixes}`; `POST` and `DELETE` reject any request whose type is
outside this set with a 400 response and an unchanged world, and
Discovery's parser only ever yields types in the set. -/
theorem c6_types_enforced :
    VALID_TYPES = ["feat", "bugs", "fixes"] ∧
    (∀ cfg w repos type name bb, type ∉ VALID_TYPES →
      (postCreate cfg w repos type name bb).1.status = 400 ∧
      (postCreate cfg w repos type name bb).2 = w) ∧
    (∀ cfg w repo type name pf, type ∉ VALID_TYPES →
      (deleteWorktree cfg w repo type name pf).1.status = 400 ∧
      (deleteWorktree cfg w repo type name pf).2 = w) ∧
    (∀ canonicalName branch t n, parseBranchName canonicalName branch = some (t, n) →
      t ∈ VALID_TYPES) := by
  refine ⟨rfl, ?_, ?_, parseBranchName_type_mem⟩
  · intro cfg w repos type name bb h
    have hc : VALID_TYPES.contains type = false := by simpa using h
    unfold postCreate
    by_cases h1 : (repos.isEmpty || type == "" || name == "") = true
    · rw [if_pos h1]
      exact ⟨rfl, rfl⟩
    · rw [if_neg h1, hc]
      exact ⟨rfl, rfl⟩
  · intro cfg w repo type name pf h
    have hc : VALID_TYPES.contains type = false := by simpa using h
    unfold deleteWorktree
    by_cases h1 : (repo == "" || type == "" || name == "") = true
    · rw [if_pos h1]
      exact ⟨rfl, rfl⟩
    · rw [if_neg h1, hc]
      exact ⟨rfl, rfl⟩

/-- Witness for C6 (amended) at a concrete rejected type. -/
theorem c6_types_enforced_witness :
    (postCreate exCfg exWorld ["alpha"] "feature" "x" []).1.status = 400 ∧
    (postCreate exCfg exWorld ["alpha"] "feature" "x" []).2 = exWorld :=
  c6_types_enforced.2.1 exCfg exWorld ["alpha"] "feature" "x" [] (by decide)

/-! ## Claim C3: base-branch resolution -/

/-- The repository state of the C3 failing input: only `main` exists
locally, nothing resolvable remotely. -/
def c3Repo : GitRepo := ⟨["main"], [], "main", []⟩

/-- A world holding that clone, with `git fetch` failing so the advisory
integration-branch dance (lines 175–204) is skipped, as its guard allows. -/
def c3World : World :=
  { fs := [("/repos", .dir), ("/repos/alpha", .dir), ("/repos/alpha/.git", .dir)],
    repos := [("alpha", c3Repo)],
    remotes := [("alpha", ⟨[], "main"⟩)],
    heads := [], tokenAvailable := true, fetchFails := true, rmFails := [], events := [] }

/-- C3: contrary to the claim (and to the source's own comment
`// Will be overridden by fallback below`, line 550), a supplied base-branch
hint that exists neither locally nor remotely resolves to the literal
`'dev'` without running the `dev → main → master` autodetection: with only
`main` present the hinted call fails at the git mutation with
`invalid reference: dev`, while the identical call without a hint
autodetects `main` and succeeds. -/
theorem c3_hint_fallback_skips_autodetection :
    (resolveBaseStep c3Repo "alpha-feat-login" false (some "release")).1 = "dev" ∧
    (resolveBaseStep c3Repo "alpha-feat-login" false none).1 = "main" ∧
    "main" ∈ c3Repo.localBranches ∧ "dev" ∉ c3Repo.localBranches ∧
    "release" ∉ c3Repo.localBranches ∧ "release" ∉ c3Repo.remoteBranches ∧
    (createWorktreeForRepo exCfg c3World "alpha" "feat" "login" (some "release")).1 =
      .error "Failed to create worktree: fatal: invalid reference: dev" ∧
    (createWorktreeForRepo exCfg c3World "alpha" "feat" "login" none).1 =
      .ok ⟨"alpha-key", "alpha", "feat", "login", "alpha-feat-login",
        "/repos/Tree/alpha/alpha-feat-login"⟩ := by
  refine ⟨rfl, rfl, by decide, by decide, by decide, by decide, rfl, rfl⟩

/-! ## Claim C7: name validation -/

/-- C7 counterexample: a name containing `.` — outside `[A-Za-z0-9_-]` — is
not rejected: the create request succeeds end to end and mutates state. -/
theorem c7_bad_name_not_rejected :
    (postCreate exCfg exWorld ["alpha"] "feat" "a.b" []).1.status = 200 ∧
    (postCreate exCfg exWorld ["alpha"] "feat" "a.b" []).1.worktrees =
      [⟨"alpha-key", "alpha", "feat", "a.b", "alpha-feat-a.b", "/repos/Tree/alpha/alpha-feat-a.b"⟩] ∧
    (postCreate exCfg exWorld ["alpha"] "feat" "a.b" []).2.events ≠ [] := by
  refine ⟨rfl, rfl, by decide⟩

/-- C7 (amended): the create API performs no name-pattern validation — a
request is rejected (400) exactly when the repository list is empty, the
type or name is an empty string, the type is unrecognized, or some
repository identifier is unknown; the name's characters are never
examined.  (The `[A-Za-z0-9_-]+` pattern is enforced only by the browser
form, `app/page.tsx` line 78.) -/
theorem c7_post_rejects_iff (cfg : Config) (w : World) (repos : List String)
    (type name : String) (bb : List (String × String)) :
    (postCreate cfg w repos type name bb).1.status = 400 ↔
      (repos = [] ∨ type = "" ∨ name = "" ∨ type ∉ VALID_TYPES ∨
        ∃ rp ∈ repos, resolveRepoIdent cfg rp = none) := by
  unfold postCreate
  by_cases h1 : (repos.isEmpty || type == "" || name == "") = true
  · rw [if_pos h1]
    simp only [Bool.or_eq_true, List.isEmpty_iff, beq_iff_eq] at h1
    constructor
    · intro _
      rcases h1 with (h | h) | h
      · exact Or.inl h
      · exact Or.inr (Or.inl h)
      · exact Or.inr (Or.inr (Or.inl h))
    · intro _
      rfl
  · rw [if_neg h1]
    simp only [Bool.or_eq_true, List.isEmpty_iff, beq_iff_eq, not_or] at h1
    obtain ⟨⟨hr, ht⟩, hn⟩ := h1
    by_cases h2 : VALID_TYPES.contains type = true
    · rw [h2]
      simp only [Bool.not_true]
      rw [if_neg (by simp)]
      cases hf : repos.find? (fun rp => (resolveRepoIdent cfg rp).isNone) with
      | some rp =>
        constructor
        · intro _
          refine Or.inr (Or.inr (Or.inr (Or.inr ⟨rp, List.mem_of_find?_eq_some hf, ?_⟩)))
          have := List.find?_some hf
          simpa [Option.isNone_iff_eq_none] using this
        · intro _
          rfl
      | none =>
        have hnone : ∀ rp ∈ repos, resolveRepoIdent cfg rp ≠ none := by
          intro rp hrp hcon
          have := List.find?_eq_none.mp hf rp hrp
          simp [hcon] at this
        constructor
        · intro hst
          exfalso
          revert hst
          split
          · rename_i heq
            exact fun _ => Option.noConfusion heq
          · split <;> simp
        · intro hrhs
          exfalso
          rcases hrhs with h | h | h | h | ⟨rp, hrp, hres⟩
          · exact hr h
          · exact ht h
          · exact hn h
          · exact h (by simpa using h2)
          · exact hnone rp hrp hres
    · rw [eq_comm] at h2
      have h2' : VALID_TYPES.contains type = false := by
        cases hc : VALID_TYPES.contains type
        · rfl
        · exact absurd hc.symm h2
      rw [h2']
      constructor
      · intro _
        refine Or.inr (Or.inr (Or.inr (Or.inl ?_)))
        intro hmem
        have : VALID_TYPES.contains type = true := by simpa using hmem
        rw [this] at h2'
        exact absurd h2' (by simp)
      · intro _
        rfl

/-- Witness for C7 (amended) at a concrete request with a space in the
name. -/
theorem c7_post_rejects_iff_witness :
    (postCreate exCfg exWorld ["alpha"] "feat" "a b" []).1.status = 400 ↔
      (["alpha"] = ([] : List String) ∨ "feat" = "" ∨ "a b" = "" ∨ "feat" ∉ VALID_TYPES ∨
        ∃ rp ∈ ["alpha"], resolveRepoIdent exCfg rp = none) :=
  c7_post_rejects_iff exCfg exWorld ["alpha"] "feat" "a b" []

/-! ## Claim C2: conflict safety against a primary clone -/

theorem existsSyncB_fsRemoveTree_self (fs : Fs) (p : String) :
    existsSyncB (fsRemoveTree fs p) p = false := by
  unfold existsSyncB
  rw [alookup_fsRemoveTree_self]
  rfl

/-- C2: when the computed worktree path exists and its `.git` entry is a
directory (a primary clone), create fails with the `PathConflict` message
and the only state change is the `mkdir -p` of the parent directory — no
file is deleted and no git state is touched. -/
theorem c2_primary_clone_conflict (cfg : Config) (w : World) (repo type name : String)
    (base : Option String) (key : String) (rc : RepoCfg)
    (hres : resolveRepoIdent cfg repo = some (key, rc))
    (hex : existsSyncB w.fs
      (pathJoin (pathJoin cfg.worktreeRoot rc.name) (deriveBranchName rc.name type name)) = true)
    (hgd : alookup w.fs (pathJoin
      (pathJoin (pathJoin cfg.worktreeRoot rc.name) (deriveBranchName rc.name type name))
      ".git") = some .dir) :
    createWorktreeForRepo cfg w repo type name base =
      (.error (pathConflictMsg
        (pathJoin (pathJoin cfg.worktreeRoot rc.name) (deriveBranchName rc.name type name))),
       mkdirp w (pathJoin cfg.worktreeRoot rc.name)) ∧
    (mkdirp w (pathJoin cfg.worktreeRoot rc.name)).repos = w.repos ∧
    (mkdirp w (pathJoin cfg.worktreeRoot rc.name)).heads = w.heads ∧
    (∀ e ∈ w.fs, e ∈ (mkdirp w (pathJoin cfg.worktreeRoot rc.name)).fs) := by
  refine ⟨?_, mkdirp_repos w _, mkdirp_heads w _, fun e he => mkdirp_fs_mono w _ e he⟩
  unfold createWorktreeForRepo
  rw [hres]
  unfold createResolved
  have h1 : existsSyncB (mkdirp w (pathJoin cfg.worktreeRoot rc.name)).fs
      (pathJoin (pathJoin cfg.worktreeRoot rc.name) (deriveBranchName rc.name type name)) = true :=
    existsSyncB_mkdirp_of_exists w _ _ hex
  have h2 : isDirB (mkdirp w (pathJoin cfg.worktreeRoot rc.name)).fs
      (pathJoin (pathJoin (pathJoin cfg.worktreeRoot rc.name) (deriveBranchName rc.name type name))
        ".git") = true := by
    unfold isDirB
    rw [alookup_mkdirp_of_isSome w _ _ (by rw [hgd]; rfl), hgd]
  simp only [h1, h2, Bool.and_self, if_pos]

/-- A world whose computed target path is occupied by a primary clone. -/
def c2World : World :=
  { fs := [("/repos", .dir), ("/repos/alpha", .dir), ("/repos/alpha/.git", .dir),
           ("/repos/Tree/alpha", .dir), ("/repos/Tree/alpha/alpha-feat-x", .dir),
           ("/repos/Tree/alpha/alpha-feat-x/.git", .dir)],
    repos := [("alpha", ⟨["dev"], ["dev"], "dev", []⟩)],
    remotes := [("alpha", ⟨["dev"], "dev"⟩)],
    heads := [], tokenAvailable := true, fetchFails := false, rmFails := [], events := [] }

/-- Witness for C2 at a concrete conflicting world. -/
theorem c2_primary_clone_conflict_witness :
    createWorktreeForRepo exCfg c2World "alpha" "feat" "x" none =
      (.error (pathConflictMsg "/repos/Tree/alpha/alpha-feat-x"),
       mkdirp c2World "/repos/Tree/alpha") ∧
    (mkdirp c2World "/repos/Tree/alpha").repos = c2World.repos := by
  have h := c2_primary_clone_conflict exCfg c2World "alpha" "feat" "x" none "alpha-key"
    ⟨"alpha", "https://github.com/org/alpha"⟩ rfl rfl rfl
  exact ⟨h.1, h.2.1⟩

/-! ## Claims C8 and C10: deletion -/

/-- Inversion of a successful `git worktree remove`. -/
theorem wtRemoveCmd_ok_inv (w : World) (rcName p : String) (a : World)
    (h : wtRemoveCmd w rcName p = .ok a) :
    ∃ r e, getRepo w rcName = some r ∧
      r.worktrees.find? (fun x => x.path == p) = some e ∧ e.prunable = false ∧
      a = logEv
        { setRepo w rcName { r with worktrees := r.worktrees.filter (fun x => !(x.path == p)) } with
          fs := fsRemoveTree w.fs p,
          heads := w.heads.filter (fun e => !(pathUnder p e.1)) }
        (.wtRemove p) := by
  unfold wtRemoveCmd at h
  split at h
  · exact absurd h (by simp)
  · rename_i r hr
    split at h
    · exact absurd h (by simp)
    · rename_i e he
      split at h
      · exact absurd h (by simp)
      · rename_i hpr
        rw [Except.ok.injEq] at h
        exact ⟨r, e, hr, he, by simpa using hpr, h.symm⟩

theorem contains_eq_true_of_mem {l : List String} {a : String} (h : a ∈ l) :
    l.contains a = true := by simpa using h

/-- C8: deleting a worktree whose directory exists and whose owning clone
exists, but whose git-level registration is already gone, still succeeds:
the `git worktree remove` failure is absorbed and the directory is removed;
and only the directory removal failing makes the operation fail (500). -/
theorem c8_delete_directory_only (cfg : Config) (w : World) (repo type name key : String)
    (rc : RepoCfg)
    (hrepo : repo ≠ "") (htype : type ∈ VALID_TYPES) (hname : name ≠ "")
    (hres : resolveRepoIdent cfg repo = some (key, rc))
    (hdir : existsSyncB w.fs
      (pathJoin (pathJoin cfg.worktreeRoot rc.name) (deriveBranchName rc.name type name)) = true)
    (hclone : existsSyncB w.fs (pathJoin cfg.rootDir rc.name) = true)
    (hgit : existsSyncB w.fs (pathJoin (pathJoin cfg.rootDir rc.name) ".git") = true)
    (hgone : ∀ r, getRepo w rc.name = some r → ∀ e ∈ r.worktrees,
      e.path ≠ pathJoin (pathJoin cfg.worktreeRoot rc.name) (deriveBranchName rc.name type name)) :
    (w.rmFails.contains
        (pathJoin (pathJoin cfg.worktreeRoot rc.name) (deriveBranchName rc.name type name)) = false →
      (deleteWorktree cfg w repo type name none).1.status = 200 ∧
      alookup (deleteWorktree cfg w repo type name none).2.fs
        (pathJoin (pathJoin cfg.worktreeRoot rc.name) (deriveBranchName rc.name type name)) = none) ∧
    (w.rmFails.contains
        (pathJoin (pathJoin cfg.worktreeRoot rc.name) (deriveBranchName rc.name type name)) = true →
      (deleteWorktree cfg w repo type name none).1.status = 500) := by
  have htne : type ≠ "" := by
    rintro rfl
    exact absurd htype (by decide)
  unfold deleteWorktree
  rw [if_neg (by simp [hrepo, htne, hname]), if_neg (by simpa using htype), hres]
  simp only [jsTruthy, hdir, hclone, hgit, Bool.not_true, Bool.false_eq_true, Bool.or_self,
    if_neg not_false, Option.getD_some]
  have hw1 : recoverW (wtRemoveCmd w rc.name
      (pathJoin (pathJoin cfg.worktreeRoot rc.name) (deriveBranchName rc.name type name))) w = w := by
    cases hrm : wtRemoveCmd w rc.name
        (pathJoin (pathJoin cfg.worktreeRoot rc.name) (deriveBranchName rc.name type name)) with
    | ok a =>
      exfalso
      obtain ⟨r, e, hg, hf, _, _⟩ := wtRemoveCmd_ok_inv _ _ _ _ hrm
      have hmem := List.mem_of_find?_eq_some hf
      have hpe := List.find?_some hf
      exact hgone r hg e hmem (by simpa using hpe)
    | error e => rfl
  rw [hw1, if_pos hdir]
  constructor
  · intro hfail
    unfold rmTreeW
    rw [hfail]
    simp only [Bool.false_eq_true, if_neg not_false]
    refine ⟨by trivial, ?_⟩
    simp only [logEv]
    exact alookup_fsRemoveTree_self w.fs _
  · intro hfail
    unfold rmTreeW
    rw [hfail]
    rfl

/-- A world with the worktree directory on disk but no git registration. -/
def c8World : World :=
  { fs := [("/repos", .dir), ("/repos/alpha", .dir), ("/repos/alpha/.git", .dir),
           ("/repos/Tree/alpha", .dir), ("/repos/Tree/alpha/alpha-feat-x", .dir),
           ("/repos/Tree/alpha/alpha-feat-x/.git", .file "gitdir: /repos/alpha/.git/worktrees/alpha-feat-x")],
    repos := [("alpha", ⟨["dev", "alpha-feat-x"], ["dev"], "dev", []⟩)],
    remotes := [("alpha", ⟨["dev"], "dev"⟩)],
    heads := [], tokenAvailable := true, fetchFails := false, rmFails := [], events := [] }

/-- Witness for C8: the directory-only worktree is deleted successfully. -/
theorem c8_delete_directory_only_witness :
    (deleteWorktree exCfg c8World "alpha" "feat" "x" none).1.status = 200 ∧
    alookup (deleteWorktree exCfg c8World "alpha" "feat" "x" none).2.fs
      "/repos/Tree/alpha/alpha-feat-x" = none := by
  have h := (c8_delete_directory_only exCfg c8World "alpha" "feat" "x" "alpha-key"
    ⟨"alpha", "https://github.com/org/alpha"⟩ (by decide) (by decide) (by decide) rfl
    rfl rfl rfl (by
      intro r hr e he
      rw [show r = (⟨["dev", "alpha-feat-x"], ["dev"], "dev", []⟩ : GitRepo) from
        by simpa [getRepo, c8World, alookup] using hr.symm] at he
      simp at he)).1 rfl
  exact h

/-- C10: a truthy explicit `path` field completely replaces the
identity-derived worktree path: the existence check, the git-level removal
and the directory removal are all applied to exactly the supplied path,
with no check that it matches the derived path or lies under the worktree
root. -/
theorem c10_explicit_path_replaces_derived (cfg : Config) (w : World)
    (repo type name p key : String) (rc : RepoCfg)
    (hrepo : repo ≠ "") (htype : type ∈ VALID_TYPES) (hname : name ≠ "") (hp : p ≠ "")
    (hres : resolveRepoIdent cfg repo = some (key, rc)) :
    (existsSyncB w.fs p = false →
      deleteWorktree cfg w repo type name (some p) =
        (⟨404, none, some ("Working tree not found at " ++ p)⟩, w)) ∧
    (existsSyncB w.fs p = true →
     existsSyncB w.fs (pathJoin cfg.rootDir rc.name) = true →
     existsSyncB w.fs (pathJoin (pathJoin cfg.rootDir rc.name) ".git") = true →
     w.rmFails.contains p = false →
      (deleteWorktree cfg w repo type name (some p)).1.status = 200 ∧
      alookup (deleteWorktree cfg w repo type name (some p)).2.fs p = none) := by
  have htne : type ≠ "" := by
    rintro rfl
    exact absurd htype (by decide)
  have htruthy : jsTruthy (some p) = true := by simp [jsTruthy, hp]
  constructor
  · intro hnex
    unfold deleteWorktree
    rw [if_neg (by simp [hrepo, htne, hname]), if_neg (by simpa using htype), hres]
    simp only [htruthy, if_pos rfl, Option.getD_some, hnex, Bool.not_false, if_pos]
  · intro hex hclone hgit hnofail
    unfold deleteWorktree
    rw [if_neg (by simp [hrepo, htne, hname]), if_neg (by simpa using htype), hres]
    simp only [htruthy, eq_self_iff_true, if_true, Option.getD_some, hex, hclone, hgit,
      Bool.not_true, Bool.false_eq_true, Bool.or_self, if_neg not_false]
    cases hrm : wtRemoveCmd w rc.name p with
    | ok a =>
      obtain ⟨r, e, hr, hf, hpr, ha⟩ := wtRemoveCmd_ok_inv w rc.name p a hrm
      have hafs : a.fs = fsRemoveTree w.fs p := by rw [ha]; rfl
      have hnex2 : existsSyncB a.fs p = false := by
        rw [hafs]; exact existsSyncB_fsRemoveTree_self w.fs p
      simp only [recoverW, hnex2, Bool.false_eq_true, if_neg not_false]
      exact ⟨by trivial, by rw [hafs]; exact alookup_fsRemoveTree_self w.fs p⟩
    | error e =>
      simp only [recoverW, hex, if_pos rfl, eq_self_iff_true, if_true]
      unfold rmTreeW
      rw [hnofail]
      simp only [Bool.false_eq_true, if_neg not_false]
      refine ⟨by trivial, ?_⟩
      simp only [logEv]
      exact alookup_fsRemoveTree_self w.fs _

/-! ## Claim C5: whether discovery is read-only -/

theorem foldl_frame {α β γ : Type} (f : β → α → β) (g : β → γ)
    (hf : ∀ st e, g (f st e) = g st) (l : List α) (st : β) :
    g (l.foldl f st) = g st := by
  induction l generalizing st with
  | nil => rfl
  | cons x xs ih => rw [List.foldl_cons, ih, hf]

theorem fsWriteW_repos (w : World) (p c : String) : (fsWriteW w p c).repos = w.repos := rfl

theorem fsWriteW_heads (w : World) (p c : String) : (fsWriteW w p c).heads = w.heads := rfl

theorem gitFileFixState_frame (cfg : Config) (w : World) (gitFile content : String) :
    (gitFileFixState cfg w gitFile content).2.2.repos = w.repos ∧
    (gitFileFixState cfg w gitFile content).2.2.heads = w.heads := by
  simp only [gitFileFixState]
  repeat' split
  all_goals exact ⟨rfl, rfl⟩

theorem wtHeadRead_frame (cfg : Config) (w1 : World)
    (worktreePath gitFile branchName original : String) (needsFix : Bool) :
    (wtHeadRead cfg w1 worktreePath gitFile branchName original needsFix).2.repos = w1.repos ∧
    (wtHeadRead cfg w1 worktreePath gitFile branchName original needsFix).2.heads = w1.heads := by
  simp only [wtHeadRead]
  repeat' split
  all_goals exact ⟨rfl, rfl⟩

theorem fsPassCore_frame (cfg : Config) (w : World)
    (worktreePath gitFile branchName content : String) :
    (fsPassCore cfg w worktreePath gitFile branchName content).2.repos = w.repos ∧
    (fsPassCore cfg w worktreePath gitFile branchName content).2.heads = w.heads := by
  have h1 := gitFileFixState_frame cfg w gitFile content
  have h2 := wtHeadRead_frame cfg (gitFileFixState cfg w gitFile content).2.2 worktreePath
    gitFile branchName (gitFileFixState cfg w gitFile content).2.1
    (gitFileFixState cfg w gitFile content).1
  simp only [fsPassCore]
  split
  · exact ⟨by rw [fsWriteW_repos, h2.1, h1.1], by rw [fsWriteW_heads, h2.2, h1.2]⟩
  · exact ⟨by rw [h2.1, h1.1], by rw [h2.2, h1.2]⟩

theorem fsPassCore_world_of_roots_eq (cfg : Config) (w : World)
    (worktreePath gitFile branchName content : String)
    (hroots : cfg.hostRootDir = cfg.rootDir) :
    (fsPassCore cfg w worktreePath gitFile branchName content).2 = w := by
  have hbne : (cfg.rootDir != cfg.hostRootDir) = false := by
    rw [hroots]
    simp
  have hfx : gitFileFixState cfg w gitFile content = (false, "", w) := by
    unfold gitFileFixState
    rw [hbne]
    rfl
  simp only [fsPassCore, hfx]
  unfold wtHeadRead
  split
  · rename_i h
    exact absurd h (by simp)
  · split <;> rfl

/-- One filesystem-pass branch directory never touches git state. -/
theorem fsPassBranchDir_frame (cfg : Config) (key : String) (rc : RepoCfg) (rdp : String)
    (st : List DiscoveredWt × List String × World) (e : String × FsNode) :
    (fsPassBranchDir cfg key rc rdp st e).2.2.repos = st.2.2.repos ∧
    (fsPassBranchDir cfg key rc rdp st e).2.2.heads = st.2.2.heads := by
  obtain ⟨acc, seen, w⟩ := st
  obtain ⟨en, nd⟩ := e
  simp only [fsPassBranchDir]
  repeat' split
  all_goals first
    | exact ⟨rfl, rfl⟩
    | exact ⟨(fsPassCore_frame cfg w _ _ _ _).1, (fsPassCore_frame cfg w _ _ _ _).2⟩

/-- With coinciding roots, one filesystem-pass branch directory leaves the
whole world unchanged. -/
theorem fsPassBranchDir_world_of_roots_eq (cfg : Config) (key : String) (rc : RepoCfg)
    (rdp : String) (hroots : cfg.hostRootDir = cfg.rootDir)
    (st : List DiscoveredWt × List String × World) (e : String × FsNode) :
    (fsPassBranchDir cfg key rc rdp st e).2.2 = st.2.2 := by
  obtain ⟨acc, seen, w⟩ := st
  obtain ⟨en, nd⟩ := e
  simp only [fsPassBranchDir]
  repeat' split
  all_goals first
    | rfl
    | exact fsPassCore_world_of_roots_eq cfg w _ _ _ _ hroots

theorem fsPassRepoDir_frame (cfg : Config)
    (st : List DiscoveredWt × List String × World) (e : String × FsNode) :
    (fsPassRepoDir cfg st e).2.2.repos = st.2.2.repos ∧
    (fsPassRepoDir cfg st e).2.2.heads = st.2.2.heads := by
  obtain ⟨en, nd⟩ := e
  simp only [fsPassRepoDir]
  split
  · exact ⟨rfl, rfl⟩
  · split
    · exact ⟨rfl, rfl⟩
    · rename_i k rc heq
      constructor
      · exact foldl_frame _ (fun st => st.2.2.repos)
          (fun st e => (fsPassBranchDir_frame cfg k rc _ st e).1) _ _
      · exact foldl_frame _ (fun st => st.2.2.heads)
          (fun st e => (fsPassBranchDir_frame cfg k rc _ st e).2) _ _

theorem fsPassRepoDir_world_of_roots_eq (cfg : Config) (hroots : cfg.hostRootDir = cfg.rootDir)
    (st : List DiscoveredWt × List String × World) (e : String × FsNode) :
    (fsPassRepoDir cfg st e).2.2 = st.2.2 := by
  obtain ⟨en, nd⟩ := e
  simp only [fsPassRepoDir]
  split
  · rfl
  · split
    · rfl
    · rename_i k rc heq
      exact foldl_frame _ (fun st => st.2.2)
        (fun st e => fsPassBranchDir_world_of_roots_eq cfg k rc _ hroots st e) _ _

/-- C5 (amended): the `GET` discovery never touches git state (registry or
worktree HEADs), and when the container and host roots coincide — the
default configuration, `HOST_REPO_ROOT || ROOT_DIR` — it is fully
read-only, leaving the whole world unchanged.  (When the roots differ its
filesystem pass rewrites worktree `.git` pointer files; see the
counterexample.) -/
theorem c5_discovery_readonly :
    (∀ cfg w, cfg.hostRootDir = cfg.rootDir → (discover cfg w).2 = w) ∧
    (∀ cfg w, (discover cfg w).2.repos = w.repos ∧ (discover cfg w).2.heads = w.heads) := by
  constructor
  · intro cfg w h
    unfold discover
    split
    · exact foldl_frame _ (fun st => st.2.2)
        (fun st e => fsPassRepoDir_world_of_roots_eq cfg h st e) _ _
    · rfl
  · intro cfg w
    unfold discover
    split
    · constructor
      · exact foldl_frame _ (fun st => st.2.2.repos)
          (fun st e => (fsPassRepoDir_frame cfg st e).1) _ _
      · exact foldl_frame _ (fun st => st.2.2.heads)
          (fun st e => (fsPassRepoDir_frame cfg st e).2) _ _
    · exact ⟨rfl, rfl⟩

/-- Witness for C5 (amended) on the concrete equal-roots world. -/
theorem c5_discovery_readonly_witness :
    (discover exCfg exWorld).2 = exWorld ∧ (discover exCfg exWorld).2.repos = exWorld.repos :=
  ⟨c5_discovery_readonly.1 exCfg exWorld rfl, (c5_discovery_readonly.2 exCfg exWorld).1⟩

/-- A differing-roots configuration for the C5 counterexample. -/
def c5Cfg : Config :=
  ⟨[("alpha-key", ⟨"alpha", "https://github.com/org/alpha"⟩)], "/repos", "/host", "/repos/Tree"⟩

/-- A world with one intact worktree whose `.git` pointer file holds the
container-root form. -/
def c5World : World :=
  { fs := [("/repos", .dir), ("/repos/alpha", .dir), ("/repos/alpha/.git", .dir),
           ("/repos/Tree", .dir), ("/repos/Tree/alpha", .dir),
           ("/repos/Tree/alpha/alpha-feat-x", .dir),
           ("/repos/Tree/alpha/alpha-feat-x/.git",
             .file "gitdir: /repos/alpha/.git/worktrees/alpha-feat-x")],
    repos := [("alpha", ⟨["dev"], ["dev"], "dev", []⟩)],
    remotes := [("alpha", ⟨["dev"], "dev"⟩)],
    heads := [("/repos/Tree/alpha/alpha-feat-x", "alpha-feat-x")],
    tokenAvailable := true, fetchFails := false, rmFails := [], events := [] }

/-- C5 counterexample: with differing container and host roots, running
discovery permanently rewrites the worktree's `.git` pointer file (lines
987–994 write the host form and never restore it), so discovery is not
read-only as claimed. -/
theorem c5_discovery_writes_pointer_file :
    alookup c5World.fs "/repos/Tree/alpha/alpha-feat-x/.git" =
      some (.file "gitdir: /repos/alpha/.git/worktrees/alpha-feat-x") ∧
    alookup (discover c5Cfg c5World).2.fs "/repos/Tree/alpha/alpha-feat-x/.git" =
      some (.file "gitdir: /host/alpha/.git/worktrees/alpha-feat-x\n") ∧
    (discover c5Cfg c5World).2.fs ≠ c5World.fs ∧
    (discover c5Cfg c5World).2.events = [.fileWrite "/repos/Tree/alpha/alpha-feat-x/.git"] := by
  refine ⟨rfl, rfl, by decide, rfl⟩

/-- A world with the derived worktree present and an unrelated path outside
the worktree root. -/
def c10World : World :=
  { fs := [("/repos", .dir), ("/repos/alpha", .dir), ("/repos/alpha/.git", .dir),
           ("/repos/Tree/alpha", .dir), ("/repos/Tree/alpha/alpha-feat-x", .dir),
           ("/repos/Tree/alpha/alpha-feat-x/.git", .file "gitdir: /repos/alpha/.git/worktrees/alpha-feat-x"),
           ("/etc/cron.d", .dir)],
    repos := [("alpha", ⟨["dev", "alpha-feat-x"], ["dev"], "dev",
      [⟨"/repos/Tree/alpha/alpha-feat-x", some "alpha-feat-x", false⟩]⟩)],
    remotes := [("alpha", ⟨["dev"], "dev"⟩)],
    heads := [("/repos/Tree/alpha/alpha-feat-x", "alpha-feat-x")],
    tokenAvailable := true, fetchFails := false, rmFails := [], events := [] }

/-- Witness for C10: with an explicit path far outside the worktree root,
delete removes exactly that path and succeeds, leaving the derived worktree
alone. -/
theorem c10_explicit_path_replaces_derived_witness :
    (deleteWorktree exCfg c10World "alpha" "feat" "x" (some "/etc/cron.d")).1.status = 200 ∧
    alookup (deleteWorktree exCfg c10World "alpha" "feat" "x" (some "/etc/cron.d")).2.fs
      "/etc/cron.d" = none := by
  exact (c10_explicit_path_replaces_derived exCfg c10World "alpha" "feat" "x" "/etc/cron.d"
    "alpha-key" ⟨"alpha", "https://github.com/org/alpha"⟩ (by decide) (by decide) (by decide)
    (by decide) rfl).2 rfl rfl rfl rfl

/-! ## More lemmas about the state primitives, towards C1 and C9 -/

theorem alookup_append {α : Type} (l₁ l₂ : List (String × α)) (p : String) :
    alookup (l₁ ++ l₂) p =
      match alookup l₁ p with
      | some v => some v
      | none => alookup l₂ p := by
  induction l₁ with
  | nil => rfl
  | cons e t ih =>
    obtain ⟨k, v⟩ := e
    rw [List.cons_append, alookup_cons, alookup_cons]
    split
    · rfl
    · exact ih

theorem aset_alookup_self {α : Type} (m : List (String × α)) (k : String) (v : α) :
    alookup (aset m k v) k = some v := by
  induction m with
  | nil => simp [aset, alookup]
  | cons e t ih =>
    obtain ⟨k₁, v₁⟩ := e
    unfold aset
    split
    · rename_i hk
      rw [alookup_cons, if_pos rfl]
    · rename_i hk
      rw [alookup_cons, if_neg hk]
      exact ih

theorem aset_alookup_ne {α : Type} (m : List (String × α)) (k : String) (v : α) (p : String)
    (h : k ≠ p) : alookup (aset m k v) p = alookup m p := by
  induction m with
  | nil => simp [aset, alookup, h]
  | cons e t ih =>
    obtain ⟨k₁, v₁⟩ := e
    unfold aset
    split
    · rename_i hk
      subst hk
      rw [alookup_cons, alookup_cons, if_neg h, if_neg h]
    · rw [alookup_cons, alookup_cons]
      split
      · rfl
      · exact ih

theorem aset_exists_mono (m : Fs) (k : String) (v : FsNode) (p : String)
    (h : existsSyncB m p = true) : existsSyncB (aset m k v) p = true := by
  unfold existsSyncB at *
  by_cases hk : k = p
  · subst hk
    rw [aset_alookup_self]
    rfl
  · rw [aset_alookup_ne m k v p hk]
    exact h

theorem isDirB_aset_file (m : Fs) (k c p : String)
    (h : isDirB (aset m k (.file c)) p = true) : isDirB m p = true := by
  unfold isDirB at *
  by_cases hk : k = p
  · subst hk
    rw [aset_alookup_self] at h
    exact absurd h (by simp)
  · rw [aset_alookup_ne m k _ p hk] at h
    exact h

theorem fsRemoveTree_alookup_of_not_under (fs : Fs) (p q : String)
    (h : pathUnder p q = false) : alookup (fsRemoveTree fs p) q = alookup fs q := by
  induction fs with
  | nil => rfl
  | cons e t ih =>
    obtain ⟨k, v⟩ := e
    unfold fsRemoveTree at ih ⊢
    rw [List.filter_cons]
    split
    · rw [alookup_cons, alookup_cons]
      split
      · rfl
      · exact ih
    · rename_i hkeep
      rw [alookup_cons]
      split
      · rename_i hk
        subst hk
        rw [h] at hkeep
        simp at hkeep
      · exact ih

theorem mkdirp_stable (w : World) (p : String) :
    (mkdirp w p).repos = w.repos ∧ (mkdirp w p).heads = w.heads ∧
    (mkdirp w p).remotes = w.remotes ∧ (mkdirp w p).tokenAvailable = w.tokenAvailable ∧
    (mkdirp w p).fetchFails = w.fetchFails ∧ (mkdirp w p).rmFails = w.rmFails := by
  unfold mkdirp logEv
  split <;> exact ⟨rfl, rfl, rfl, rfl, rfl, rfl⟩

theorem alookup_mkdirp_ne (w : World) (p q : String) (h : p ≠ q) :
    alookup (mkdirp w p).fs q = alookup w.fs q := by
  unfold mkdirp logEv
  split
  · rfl
  · rw [alookup_append]
    split
    · rename_i v hv
      exact hv.symm
    · rename_i hv
      rw [alookup_cons, if_neg h, hv]
      rfl

theorem contains_eq_false_of_not_mem {l : List String} {a : String} (h : a ∉ l) :
    l.contains a = false := by simpa using h

theorem ensureDevDance_of_dev (r : GitRepo) (h : "dev" ∈ r.localBranches) :
    ensureDevDance r = { r with head := "dev" } := by
  have hc : r.localBranches.contains "dev" = true := contains_eq_true_of_mem h
  unfold ensureDevDance checkoutBr
  rw [hc]
  simp

theorem postAddGitFileFix_of_roots_eq (cfg : Config) (w : World) (p : String)
    (h : cfg.hostRootDir = cfg.rootDir) : postAddGitFileFix cfg w p = w := by
  have hbne : (cfg.rootDir != cfg.hostRootDir) = false := by
    rw [h]
    simp
  unfold postAddGitFileFix
  simp only [hbne, Bool.and_false, Bool.false_eq_true, if_neg not_false]
  repeat' split
  all_goals rfl

theorem gitdirMetaFix_of_roots_eq (cfg : Config) (w : World) (rp wp bn : String)
    (h : cfg.hostRootDir = cfg.rootDir) : gitdirMetaFix cfg w rp wp bn = w := by
  have hbne : (cfg.rootDir != cfg.hostRootDir) = false := by
    rw [h]
    simp
  simp only [gitdirMetaFix]
  split
  · refine foldl_frame _ id ?_ _ _
    intro st e
    show _ = st
    simp only [hbne, Bool.and_false, Bool.false_eq_true, if_neg not_false, bne_self_eq_false]
    repeat' split
    all_goals rfl
  · rfl

theorem getRepo_setRepo_self (w : World) (n : String) (r : GitRepo) :
    getRepo (setRepo w n r) n = some r := by
  unfold getRepo setRepo
  exact aset_alookup_self w.repos n r

theorem setRepo_fs (w : World) (n : String) (r : GitRepo) : (setRepo w n r).fs = w.fs := rfl

theorem logEv_fs (w : World) (e : Event) : (logEv w e).fs = w.fs := rfl

theorem logEv_repos (w : World) (e : Event) : (logEv w e).repos = w.repos := rfl

theorem mkdirp_exists_self (w : World) (p : String) :
    existsSyncB (mkdirp w p).fs p = true := by
  unfold mkdirp logEv
  split
  · assumption
  · unfold existsSyncB
    rw [alookup_append]
    split
    · rfl
    · rw [alookup_cons, if_pos rfl]
      rfl

theorem mkdirp_of_exists (w : World) (p : String) (h : existsSyncB w.fs p = true) :
    mkdirp w p = w := by
  unfold mkdirp
  rw [if_pos h]

theorem normalizeP_of_roots_eq (cfg : Config) (p : String)
    (h : cfg.hostRootDir = cfg.rootDir) : normalizeP cfg p = stripSlash p := by
  have hbne : (cfg.rootDir != cfg.hostRootDir) = false := by
    rw [h]
    simp
  simp only [normalizeP, hbne, Bool.and_false, Bool.false_eq_true, if_neg not_false]

end WTM

namespace WTM

theorem getRepo_logEv (w : World) (e : Event) (n : String) :
    getRepo (logEv w e) n = getRepo w n := rfl

theorem record_worktrees_self (r : GitRepo) (h : r.worktrees = []) :
    { r with worktrees := r.worktrees.filter (fun e => !e.prunable) } = r := by
  obtain ⟨a, b, c, d⟩ := r
  simp only at h
  subst h
  rfl

/-- `pruneScanStep` on a repository with an empty registry: only the prune
itself (and its event) happens. -/
theorem pruneScanStep_empty (w : World) (rcName rp bn wp : String) (r : GitRepo)
    (hg : getRepo w rcName = some r) (hwt : r.worktrees = []) :
    pruneScanStep w rcName rp bn wp = logEv (setRepo w rcName r) (.wtPrune rcName) := by
  simp only [pruneScanStep, wtPruneCmd, updateRepo, hg, record_worktrees_self r hwt]
  simp only [wtList, getRepo_logEv, getRepo_setRepo_self, hwt]
  simp only [List.foldl_cons, List.foldl_nil, Bool.false_and, Bool.false_eq_true,
    if_neg not_false]

/-- `headSwitchAway` when the main clone is not on the target branch. -/
theorem headSwitchAway_of_ne (w : World) (rcName bn : String) (r : GitRepo)
    (hg : getRepo w rcName = some r) (hne : r.head ≠ bn) :
    headSwitchAway w rcName bn = w := by
  have hb : (r.head == bn) = false := by simpa using hne
  simp only [headSwitchAway, hg, hb, Bool.false_eq_true, if_neg not_false]

/-- `evictStep` on a repository with an empty registry and the main clone
off the target branch: nothing to evict. -/
theorem evictStep_empty (cfg : Config) (w : World) (rcName rp bn wp : String) (r : GitRepo)
    (hg : getRepo w rcName = some r) (hwt : r.worktrees = []) (hne : r.head ≠ bn) :
    evictStep cfg w rcName rp bn wp = .ok w := by
  have hb : (some r.head == some bn) = false := by simpa using hne
  simp only [evictStep, wtList, hg, hwt, List.foldlM_cons, List.foldlM_nil, evictEntry, hb,
    Bool.false_eq_true, if_neg not_false]
  rfl

theorem mkdirp_getRepo (w : World) (p n : String) :
    getRepo (mkdirp w p) n = getRepo w n := by
  unfold getRepo
  rw [(mkdirp_stable w p).1]

theorem mkdirp_fetchFails (w : World) (p : String) :
    (mkdirp w p).fetchFails = w.fetchFails := (mkdirp_stable w p).2.2.2.2.1

theorem existsSyncB_mkdirp_ne (q p : String) (h : q ≠ p) (w : World) :
    existsSyncB (mkdirp w q).fs p = existsSyncB w.fs p := by
  unfold existsSyncB
  rw [alookup_mkdirp_ne w q p h]

theorem aset_exists_self (m : Fs) (k : String) (v : FsNode) :
    existsSyncB (aset m k v) k = true := by
  unfold existsSyncB
  rw [aset_alookup_self]
  rfl

theorem isDirB_aset_ne (m : Fs) (k : String) (v : FsNode) (p : String) (h : k ≠ p) :
    isDirB (aset m k v) p = isDirB m p := by
  unfold isDirB
  rw [aset_alookup_ne m k v p h]

theorem isDirB_aset_file_self (m : Fs) (k c : String) :
    isDirB (aset m k (.file c)) k = false := by
  unfold isDirB
  rw [aset_alookup_self]

/-- The derived clone path (route.ts line 119). -/
def repoPathOf (cfg : Config) (rc : RepoCfg) : String := pathJoin cfg.rootDir rc.name

/-- The derived worktree path (route.ts line 122). -/
def worktreePathOf (cfg : Config) (rc : RepoCfg) (type name : String) : String :=
  pathJoin (pathJoin cfg.worktreeRoot rc.name) (deriveBranchName rc.name type name)

/-- C1: calling create twice in succession with identical
`(repository, changeType, name, baseBranch)` arguments succeeds both times
and returns the same `{branch, path}` pair; the second call detects the
existing registration at the same path with the same branch, force-removes
it (logging a `wtRemove` for the path) and recreates it (logging a `wtAdd`)
rather than failing.  Stated for a clean-start world: the repository is
cloned with `dev` present and an empty worktree registry, the derived
branch is fresh, the target path is absent, the container and host roots
coincide, and the advisory fetch succeeds. -/
theorem c1_create_idempotent
    (cfg : Config) (w : World) (repo type name key : String) (rc : RepoCfg)
    (rl rrem : List String) (rh : String) (base : Option String)
    (hres : resolveRepoIdent cfg repo = some (key, rc))
    (hroots : cfg.hostRootDir = cfg.rootDir)
    (hr : getRepo w rc.name = some ⟨rl, rrem, rh, []⟩)
    (hdev : "dev" ∈ rl)
    (hfresh : deriveBranchName rc.name type name ∉ rl)
    (hfetch : w.fetchFails = false)
    (hrp : existsSyncB w.fs (repoPathOf cfg rc) = true)
    (hrpg : existsSyncB w.fs (pathJoin (repoPathOf cfg rc) ".git") = true)
    (hnwp : existsSyncB w.fs (worktreePathOf cfg rc type name) = false)
    (hne : stripSlash (repoPathOf cfg rc) ≠ stripSlash (worktreePathOf cfg rc type name))
    (hwd : pathJoin cfg.worktreeRoot rc.name ≠ worktreePathOf cfg rc type name)
    (hdnu : pathUnder (worktreePathOf cfg rc type name)
      (dirname (worktreePathOf cfg rc type name)) = false)
    (hm1 : pathJoin (pathJoin (repoPathOf cfg rc) ".git") "worktrees" ≠
      pathJoin (worktreePathOf cfg rc type name) ".git")
    (hm2 : pathJoin (pathJoin (pathJoin (repoPathOf cfg rc) ".git") "worktrees")
      (lastComponent (worktreePathOf cfg rc type name)) ≠
      pathJoin (worktreePathOf cfg rc type name) ".git")
    (hm3 : pathJoin (pathJoin (pathJoin (pathJoin (repoPathOf cfg rc) ".git") "worktrees")
      (lastComponent (worktreePathOf cfg rc type name))) "gitdir" ≠
      pathJoin (worktreePathOf cfg rc type name) ".git")
    (hbase : base = none ∨ ∃ hb, base = some hb ∧ hb ≠ "" ∧ hb ∈ rl) :
    ∃ w1 w2,
      createWorktreeForRepo cfg w repo type name base =
        (.ok ⟨key, rc.name, type, name, deriveBranchName rc.name type name,
          worktreePathOf cfg rc type name⟩, w1) ∧
      createWorktreeForRepo cfg w1 repo type name base =
        (.ok ⟨key, rc.name, type, name, deriveBranchName rc.name type name,
          worktreePathOf cfg rc type name⟩, w2) ∧
      ∃ evs, w2.events = w1.events ++ evs ∧
        Event.wtRemove (worktreePathOf cfg rc type name) ∈ evs ∧
        Event.wtAdd (worktreePathOf cfg rc type name)
          (deriveBranchName rc.name type name) ∈ evs := by
  simp only [repoPathOf, worktreePathOf] at *
  set bn := deriveBranchName rc.name type name with hbndef
  set wd := pathJoin cfg.worktreeRoot rc.name with hwddef
  set wp := pathJoin wd bn with hwpdef
  set rp := pathJoin cfg.rootDir rc.name with hrpdef
  have hbne : (cfg.rootDir != cfg.hostRootDir) = false := by rw [hroots]; simp
  have hbdev : bn ≠ "dev" := (deriveBranchName_ne_defaults rc.name type name).1
  have hnwp0 : alookup w.fs wp = none := by
    unfold existsSyncB at hnwp
    cases halo : alookup w.fs wp with
    | none => rfl
    | some v => rw [halo] at hnwp; simp at hnwp
  have e1 : existsSyncB (mkdirp w wd).fs wp = false := by
    unfold existsSyncB
    rw [alookup_mkdirp_ne w wd wp hwd, hnwp0]
    rfl
  have e2 : existsSyncB (mkdirp w wd).fs rp = true := existsSyncB_mkdirp_of_exists w wd rp hrp
  have e3 : existsSyncB (mkdirp w wd).fs (pathJoin rp ".git") = true :=
    existsSyncB_mkdirp_of_exists w wd _ hrpg
  have e4 : (mkdirp w wd).fetchFails = false := by
    rw [(mkdirp_stable w wd).2.2.2.2.1]; exact hfetch
  have e5 : getRepo (mkdirp w wd) rc.name = some ⟨rl, rrem, rh, []⟩ := by
    unfold getRepo
    rw [(mkdirp_stable w wd).1]
    exact hr
  have hcontdev : rl.contains "dev" = true := contains_eq_true_of_mem hdev
  have hcontbn : rl.contains bn = false := contains_eq_false_of_not_mem hfresh
  have hdance : ensureDevDance ⟨rl, rrem, rh, []⟩ = ⟨rl, rrem, "dev", []⟩ :=
    ensureDevDance_of_dev ⟨rl, rrem, rh, []⟩ hdev
  have hdn : dirname wp ≠ wp := by
    intro h
    rw [h] at hdnu
    simp [pathUnder] at hdnu
  have e6 : ∀ w2 : World, showRefLocal (setRepo w2 rc.name ⟨rl, rrem, "dev", []⟩) rc.name bn
      = false := by
    intro w2
    simp only [showRefLocal, getRepo_setRepo_self]
    exact hcontbn
  obtain ⟨B, hrbEq, hBc⟩ : ∃ B, resolveBaseStep ⟨rl, rrem, "dev", []⟩ bn false base =
      (B, ⟨rl, rrem, "dev", []⟩) ∧ rl.contains B = true := by
    rcases hbase with rfl | ⟨hb, rfl, hbne2, hbmem⟩
    · refine ⟨"dev", ?_, hcontdev⟩
      simp only [resolveBaseStep, jsTruthy, Bool.false_eq_true, if_neg not_false, hcontdev,
        eq_self_iff_true, if_true]
    · refine ⟨hb, ?_, contains_eq_true_of_mem hbmem⟩
      have hbt : jsTruthy (some hb) = true := by simp [jsTruthy, hbne2]
      simp only [resolveBaseStep, hbt, Bool.false_eq_true, if_neg not_false,
        eq_self_iff_true, if_true, Option.getD_some, contains_eq_true_of_mem hbmem]
  have hdevbn : (("dev" : String) == bn) = false := beq_eq_false_iff_ne.mpr (Ne.symm hbdev)
  have H1 : ∃ w1,
      createWorktreeForRepo cfg w repo type name base =
        (.ok ⟨key, rc.name, type, name, bn, wp⟩, w1) ∧
      getRepo w1 rc.name = some ⟨rl ++ [bn], rrem, "dev", [⟨wp, some bn, false⟩]⟩ ∧
      existsSyncB w1.fs rp = true ∧
      existsSyncB w1.fs (pathJoin rp ".git") = true ∧
      existsSyncB w1.fs wp = true ∧
      isDirB w1.fs (pathJoin wp ".git") = false ∧
      w1.fetchFails = false ∧
      existsSyncB w1.fs wd = true ∧
      existsSyncB w1.fs (dirname wp) = true := by
    apply Exists.intro
    constructor
    · simp only [createWorktreeForRepo, hres, createResolved]
      simp only [← hbndef, ← hwddef, ← hrpdef]
      simp only [← hwpdef]
      simp only [e1, Bool.false_and, Bool.false_eq_true, if_neg not_false]
      simp only [ensureCloned, e2, e3, Bool.not_true, Bool.or_self, Bool.false_eq_true,
        if_neg not_false]
      simp only [e4, Bool.false_eq_true, if_neg not_false]
      simp only [updateRepo, e5, hdance]
      simp only [e6]
      simp only [existingPathStep, setRepo_fs, e1, Bool.not_false, eq_self_iff_true, if_true]
      rw [pruneScanStep_empty _ _ _ _ _ _ (getRepo_setRepo_self _ _ _) rfl]
      rw [headSwitchAway_of_ne _ _ _ _
        (by rw [getRepo_logEv]; exact getRepo_setRepo_self _ _ _) (Ne.symm hbdev)]
      have hgW6 : getRepo (logEv (setRepo (setRepo (mkdirp w wd) rc.name
          ⟨rl, rrem, "dev", []⟩) rc.name ⟨rl, rrem, "dev", []⟩)
          (Event.wtPrune rc.name)) rc.name = some ⟨rl, rrem, "dev", []⟩ := by
        rw [getRepo_logEv]; exact getRepo_setRepo_self _ _ _
      have hev : evictStep cfg (logEv (setRepo (setRepo (mkdirp w wd) rc.name
          ⟨rl, rrem, "dev", []⟩) rc.name ⟨rl, rrem, "dev", []⟩)
          (Event.wtPrune rc.name)) rc.name rp bn wp
          = .ok (logEv (setRepo (setRepo (mkdirp w wd) rc.name
          ⟨rl, rrem, "dev", []⟩) rc.name ⟨rl, rrem, "dev", []⟩)
          (Event.wtPrune rc.name)) :=
        evictStep_empty _ _ _ _ _ _ _ hgW6 rfl (Ne.symm hbdev)
      simp only [hev]
      rw [headSwitchAway_of_ne _ _ _ _ hgW6 (Ne.symm hbdev)]
      simp only [mkdirp_getRepo, getRepo_logEv, getRepo_setRepo_self]
      simp only [hrbEq]
      simp only [wtAddCmd, mkdirp_getRepo, getRepo_logEv, getRepo_setRepo_self]
      simp only [existsSyncB_mkdirp_ne _ _ hdn, setRepo_fs, logEv_fs, e1, Bool.false_eq_true,
        if_neg not_false]
      simp only [List.any_nil, Bool.not_false, Bool.true_and, hcontbn, hBc, Bool.not_true,
        Bool.and_false, Bool.false_and, hdevbn, Bool.or_self, Bool.false_eq_true,
        if_neg not_false, postAddGitFileFix_of_roots_eq, gitdirMetaFix_of_roots_eq, hroots]
      rfl
    · refine ⟨?_, ?_, ?_, ?_, ?_, ?_, ?_, ?_⟩
      · simp only [getRepo, logEv, setRepo]
        rw [aset_alookup_self]
        simp
      · exact aset_exists_mono _ _ _ _ (aset_exists_mono _ _ _ _ (aset_exists_mono _ _ _ _
          (aset_exists_mono _ _ _ _ (aset_exists_mono _ _ _ _
            (existsSyncB_mkdirp_of_exists _ _ _ e2)))))
      · exact aset_exists_mono _ _ _ _ (aset_exists_mono _ _ _ _ (aset_exists_mono _ _ _ _
          (aset_exists_mono _ _ _ _ (aset_exists_mono _ _ _ _
            (existsSyncB_mkdirp_of_exists _ _ _ e3)))))
      · exact aset_exists_mono _ _ _ _ (aset_exists_mono _ _ _ _ (aset_exists_mono _ _ _ _
          (aset_exists_mono _ _ _ _ (aset_exists_self _ _ _))))
      · exact (isDirB_aset_ne _ _ _ _ hm3).trans ((isDirB_aset_ne _ _ _ _ hm2).trans
          ((isDirB_aset_ne _ _ _ _ hm1).trans (isDirB_aset_file_self _ _ _)))
      · simp only [logEv, setRepo, mkdirp_fetchFails]
        exact hfetch
      · exact aset_exists_mono _ _ _ _ (aset_exists_mono _ _ _ _ (aset_exists_mono _ _ _ _
          (aset_exists_mono _ _ _ _ (aset_exists_mono _ _ _ _
            (existsSyncB_mkdirp_of_exists _ _ _ (mkdirp_exists_self w wd))))))
      · exact aset_exists_mono _ _ _ _ (aset_exists_mono _ _ _ _ (aset_exists_mono _ _ _ _
          (aset_exists_mono _ _ _ _ (aset_exists_mono _ _ _ _
            (mkdirp_exists_self _ (dirname wp))))))
  obtain ⟨w1, hc1, hg1, hx2, hx3, hx4, hx5, hx6, hx7, hx8⟩ := H1
  have hcont2 : (rl ++ [bn]).contains bn = true := contains_eq_true_of_mem (by simp)
  have hdance2 : ensureDevDance ⟨rl ++ [bn], rrem, "dev", [⟨wp, some bn, false⟩]⟩ =
      ⟨rl ++ [bn], rrem, "dev", [⟨wp, some bn, false⟩]⟩ :=
    ensureDevDance_of_dev _ (by simp [hdev])
  have hf1 : (normalizeP cfg rp == normalizeP cfg wp) = false := by
    rw [normalizeP_of_roots_eq cfg rp hroots, normalizeP_of_roots_eq cfg wp hroots]
    exact beq_eq_false_iff_ne.mpr hne
  have H2a : ∃ w4,
      existingPathStep cfg (setRepo w1 rc.name
        ⟨rl ++ [bn], rrem, "dev", [⟨wp, some bn, false⟩]⟩) rc.name rp bn wp = .ok w4 ∧
      getRepo w4 rc.name = some ⟨rl ++ [bn], rrem, "dev", []⟩ ∧
      w4.fs = fsRemoveTree w1.fs wp ∧
      w4.events = w1.events ++ [Event.wtRemove wp] := by
    apply Exists.intro
    constructor
    · simp only [existingPathStep, setRepo_fs, hx4, Bool.not_true, Bool.false_eq_true,
        if_neg not_false]
      simp only [wtList, getRepo_setRepo_self]
      simp only [List.find?, hf1, beq_self_eq_true, Option.getD_some, if_true,
        eq_self_iff_true]
      simp only [wtRemoveCmd, getRepo_setRepo_self, List.find?, beq_self_eq_true,
        Bool.not_true, List.filter, Bool.false_eq_true, if_neg not_false]
      rfl
    · refine ⟨?_, ?_, ?_⟩
      · simp only [getRepo, logEv, setRepo]
        rw [aset_alookup_self]
      · rfl
      · rfl
  obtain ⟨w4, hstep4, hg4, hfs4, hev4⟩ := H2a
  have hnwp2 : existsSyncB w4.fs wp = false := by
    rw [hfs4]
    exact existsSyncB_fsRemoveTree_self _ _
  have hgW5b : getRepo (logEv (setRepo w4 rc.name ⟨rl ++ [bn], rrem, "dev", []⟩)
      (Event.wtPrune rc.name)) rc.name = some ⟨rl ++ [bn], rrem, "dev", []⟩ := by
    rw [getRepo_logEv]
    exact getRepo_setRepo_self _ _ _
  have hev2w : evictStep cfg (logEv (setRepo w4 rc.name ⟨rl ++ [bn], rrem, "dev", []⟩)
      (Event.wtPrune rc.name)) rc.name rp bn wp
      = .ok (logEv (setRepo w4 rc.name ⟨rl ++ [bn], rrem, "dev", []⟩)
      (Event.wtPrune rc.name)) :=
    evictStep_empty _ _ _ _ _ _ _ hgW5b rfl (Ne.symm hbdev)
  have hmk2 : mkdirp (logEv (setRepo w4 rc.name ⟨rl ++ [bn], rrem, "dev", []⟩)
      (Event.wtPrune rc.name)) (dirname wp)
      = logEv (setRepo w4 rc.name ⟨rl ++ [bn], rrem, "dev", []⟩)
      (Event.wtPrune rc.name) := by
    refine mkdirp_of_exists _ _ ?_
    show existsSyncB w4.fs (dirname wp) = true
    rw [hfs4]
    unfold existsSyncB
    rw [fsRemoveTree_alookup_of_not_under _ _ _ hdnu]
    exact hx8
  have H2 : ∃ w2,
      createWorktreeForRepo cfg w1 repo type name base =
        (.ok ⟨key, rc.name, type, name, bn, wp⟩, w2) ∧
      w2.events = w1.events ++
        [Event.wtRemove wp, Event.wtPrune rc.name, Event.wtAdd wp bn] := by
    apply Exists.intro
    constructor
    · simp only [createWorktreeForRepo, hres, createResolved]
      simp only [← hbndef, ← hwddef, ← hrpdef]
      simp only [← hwpdef]
      simp only [mkdirp_of_exists w1 wd hx7]
      simp only [hx4, hx5, Bool.and_false, Bool.true_and, Bool.false_eq_true,
        if_neg not_false]
      simp only [ensureCloned, hx2, hx3, Bool.not_true, Bool.or_self, Bool.false_eq_true,
        if_neg not_false]
      simp only [hx6, Bool.false_eq_true, if_neg not_false]
      simp only [updateRepo, hg1, hdance2]
      simp only [showRefLocal, getRepo_setRepo_self, hcont2]
      simp only [hstep4]
      rw [pruneScanStep_empty _ _ _ _ _ _ hg4 rfl]
      rw [headSwitchAway_of_ne _ _ _ _ hgW5b (Ne.symm hbdev)]
      simp only [hev2w]
      rw [headSwitchAway_of_ne _ _ _ _ hgW5b (Ne.symm hbdev)]
      simp only [hmk2]
      simp only [getRepo_logEv, getRepo_setRepo_self]
      simp only [resolveBaseStep, if_true, eq_self_iff_true]
      simp only [wtAddCmd, getRepo_setRepo_self, setRepo_fs, logEv_fs, hnwp2,
        Bool.not_true, Bool.not_false, Bool.false_and, Bool.true_and, List.any_nil,
        hcont2, Bool.and_false, hdevbn, Bool.or_self, Bool.false_eq_true,
        if_neg not_false, postAddGitFileFix_of_roots_eq, gitdirMetaFix_of_roots_eq,
        hroots]
      rfl
    · simp only [logEv, setRepo]
      simp [hev4, List.append_assoc]
  obtain ⟨w2, hc2, hevf⟩ := H2
  exact ⟨w1, w2, hc1, hc2,
    [Event.wtRemove wp, Event.wtPrune rc.name, Event.wtAdd wp bn], hevf,
    by simp, by simp⟩

theorem c1_create_idempotent_witness :
    ∃ w1 w2,
      createWorktreeForRepo exCfg exWorld "alpha" "feat" "login" none =
        (.ok ⟨"alpha-key", "alpha", "feat", "login", "alpha-feat-login",
          "/repos/Tree/alpha/alpha-feat-login"⟩, w1) ∧
      createWorktreeForRepo exCfg w1 "alpha" "feat" "login" none =
        (.ok ⟨"alpha-key", "alpha", "feat", "login", "alpha-feat-login",
          "/repos/Tree/alpha/alpha-feat-login"⟩, w2) ∧
      ∃ evs, w2.events = w1.events ++ evs ∧
        Event.wtRemove "/repos/Tree/alpha/alpha-feat-login" ∈ evs ∧
        Event.wtAdd "/repos/Tree/alpha/alpha-feat-login" "alpha-feat-login" ∈ evs :=
  c1_create_idempotent exCfg exWorld "alpha" "feat" "login" "alpha-key"
    ⟨"alpha", "https://github.com/org/alpha"⟩ ["dev"] ["dev"] "dev" none
    rfl rfl rfl (by decide) (by decide) rfl (by decide) (by decide) (by decide)
    (by decide) (by decide) (by decide) (by decide) (by decide) (by decide)
    (Or.inl rfl)

end WTM

namespace WTM

/-- Association-list registries agreeing on every repository other than
`rcName`. -/
def reposFrame (rcName : String) (old new : List (String × GitRepo)) : Prop :=
  ∀ n, n ≠ rcName → alookup new n = alookup old n

theorem rf_refl (c : String) (m : List (String × GitRepo)) : reposFrame c m m :=
  fun _ _ => rfl

theorem rf_trans {c : String} {a b d : List (String × GitRepo)}
    (h1 : reposFrame c a b) (h2 : reposFrame c b d) : reposFrame c a d :=
  fun n hn => (h2 n hn).trans (h1 n hn)

theorem rf_of_eq {c : String} {a b : List (String × GitRepo)} (h : b = a) :
    reposFrame c a b := by
  subst h
  exact rf_refl c b

theorem rf_aset (c : String) (m : List (String × GitRepo)) (r : GitRepo) :
    reposFrame c m (aset m c r) :=
  fun n hn => aset_alookup_ne m c r n (Ne.symm hn)

theorem setRepo_repos_frame (w : World) (c : String) (r : GitRepo) :
    reposFrame c w.repos (setRepo w c r).repos :=
  rf_aset c w.repos r

theorem updateRepo_frame (w : World) (c : String) (f : GitRepo → GitRepo) :
    reposFrame c w.repos (updateRepo w c f).repos := by
  unfold updateRepo
  split
  · exact rf_refl _ _
  · exact setRepo_repos_frame _ _ _

theorem wtPruneCmd_frame (w : World) (c : String) :
    reposFrame c w.repos (wtPruneCmd w c).repos :=
  updateRepo_frame w c _

theorem rmTreeW_repos (w : World) (p : String) (a : World) (h : rmTreeW w p = .ok a) :
    a.repos = w.repos := by
  unfold rmTreeW at h
  split at h
  · cases h
  · cases h
    rfl

theorem wtRemoveCmd_frame (w : World) (c p : String) (a : World)
    (h : wtRemoveCmd w c p = .ok a) : reposFrame c w.repos a.repos := by
  unfold wtRemoveCmd at h
  repeat' split at h
  all_goals cases h
  exact rf_aset _ _ _

theorem ensureCloned_frame (cfg : Config) (w : World) (rc : RepoCfg) (a : World)
    (h : ensureCloned cfg w rc = .ok a) : reposFrame rc.name w.repos a.repos := by
  unfold ensureCloned at h
  simp only [] at h
  split at h
  · split at h
    · cases h
    · split at h
      · cases h
      · cases h
        exact rf_aset _ _ _
  · cases h
    exact rf_refl _ _

theorem headSwitchAway_frame (w : World) (c b : String) :
    reposFrame c w.repos (headSwitchAway w c b).repos := by
  unfold headSwitchAway
  repeat' split
  all_goals first
    | exact rf_refl _ _
    | exact setRepo_repos_frame _ _ _

theorem existingPathStep_frame (cfg : Config) (w : World) (c rp bn wp : String) (a : World)
    (h : existingPathStep cfg w c rp bn wp = .ok a) : reposFrame c w.repos a.repos := by
  unfold existingPathStep at h
  simp only [] at h
  repeat' split at h
  all_goals cases h
  all_goals first
    | exact rf_refl _ _
    | exact wtRemoveCmd_frame _ _ _ _ (by assumption)
    | exact rf_of_eq (rmTreeW_repos _ _ _ (by assumption))

theorem existingPathStep_frame_err (cfg : Config) (w : World) (c rp bn wp : String)
    (m : String) (we : World)
    (h : existingPathStep cfg w c rp bn wp = .error (m, we)) :
    reposFrame c w.repos we.repos := by
  unfold existingPathStep at h
  simp only [] at h
  repeat' split at h
  all_goals cases h
  all_goals exact rf_refl _ _

theorem pruneScanStep_frame (w : World) (c rp bn wp : String) :
    reposFrame c w.repos (pruneScanStep w c rp bn wp).repos := by
  unfold pruneScanStep
  simp only []
  have hfold : ∀ (l : List WtEntry) (st : World),
      reposFrame c st.repos
        ((l.foldl (fun acc e =>
          if e.prunable && (jsIncludes e.path bn || e.path == wp) then
            match wtRemoveCmd acc c e.path with
            | .ok a => a
            | .error _ => wtPruneCmd acc c
          else acc) st)).repos := by
    intro l
    induction l with
    | nil => intro st; exact rf_refl _ _
    | cons x xs ih =>
      intro st
      rw [List.foldl_cons]
      refine rf_trans ?_ (ih _)
      split
      · split
        · exact wtRemoveCmd_frame _ _ _ _ (by assumption)
        · exact wtPruneCmd_frame _ _
      · exact rf_refl _ _
  split
  · exact wtPruneCmd_frame _ _
  · exact rf_trans (wtPruneCmd_frame _ _) (hfold _ _)

theorem wtAddCmd_frame (cfg : Config) (w : World) (c p b : String) (nb : Bool)
    (base : String) (a : World) (h : wtAddCmd cfg w c p b nb base = .ok a) :
    reposFrame c w.repos a.repos := by
  unfold wtAddCmd at h
  repeat' split at h
  all_goals cases h
  all_goals exact rf_aset _ _ _

theorem postAddGitFileFix_repos (cfg : Config) (w : World) (p : String) :
    (postAddGitFileFix cfg w p).repos = w.repos := by
  unfold postAddGitFileFix
  simp only []
  repeat' split
  all_goals rfl

theorem gitdirMetaFix_repos (cfg : Config) (w : World) (rp wp bn : String) :
    (gitdirMetaFix cfg w rp wp bn).repos = w.repos := by
  unfold gitdirMetaFix
  simp only []
  split
  · refine foldl_frame _ World.repos ?_ _ _
    intro st e
    repeat' split
    all_goals rfl
  · rfl

theorem evictEntry_frame_ok (cfg : Config) (c rp bn wp : String) (acc : World)
    (e : WtEntry) (a : World)
    (h : evictEntry cfg c rp bn wp acc e = .ok a) :
    reposFrame c acc.repos a.repos := by
  unfold evictEntry at h
  simp only [] at h
  repeat' split at h
  all_goals cases h
  all_goals first
    | exact rf_refl _ _
    | exact wtRemoveCmd_frame _ _ _ _ (by assumption)
    | exact wtPruneCmd_frame _ _
    | exact rf_trans (wtRemoveCmd_frame _ _ _ _ (by assumption)) (wtPruneCmd_frame _ _)
    | exact rf_of_eq (rmTreeW_repos _ _ _ (by assumption))
    | exact rf_trans (rf_trans (wtRemoveCmd_frame _ _ _ _ (by assumption))
        (wtPruneCmd_frame _ _)) (rf_of_eq (rmTreeW_repos _ _ _ (by assumption)))
    | exact rf_trans (rf_trans (wtRemoveCmd_frame _ _ _ _ (by assumption))
        (wtPruneCmd_frame _ _)) (wtPruneCmd_frame _ _)

theorem evictEntry_frame_err (cfg : Config) (c rp bn wp : String) (acc : World)
    (e : WtEntry) (m : String) (we : World)
    (h : evictEntry cfg c rp bn wp acc e = .error (m, we)) :
    reposFrame c acc.repos we.repos := by
  unfold evictEntry at h
  simp only [] at h
  repeat' split at h
  all_goals cases h
  all_goals first
    | exact rf_refl _ _
    | exact rf_trans (wtRemoveCmd_frame _ _ _ _ (by assumption)) (wtPruneCmd_frame _ _)

theorem evictFold_frame (cfg : Config) (c rp bn wp : String) (l : List WtEntry) :
    ∀ st : World,
      (∀ a, l.foldlM (evictEntry cfg c rp bn wp) st = .ok a →
        reposFrame c st.repos a.repos) ∧
      (∀ m we, l.foldlM (evictEntry cfg c rp bn wp) st = .error (m, we) →
        reposFrame c st.repos we.repos) := by
  induction l with
  | nil =>
    intro st
    constructor
    · intro a h
      cases h
      exact rf_refl _ _
    · intro m we h
      cases h
  | cons x xs ih =>
    intro st
    constructor
    · intro a h
      rw [List.foldlM_cons] at h
      cases hE : evictEntry cfg c rp bn wp st x with
      | error p =>
        rw [hE] at h
        cases h
      | ok b =>
        rw [hE] at h
        simp only [bind, Except.bind] at h
        exact rf_trans (evictEntry_frame_ok _ _ _ _ _ _ _ _ hE) ((ih b).1 a h)
    · intro m we h
      rw [List.foldlM_cons] at h
      cases hE : evictEntry cfg c rp bn wp st x with
      | error p =>
        rw [hE] at h
        simp only [bind, Except.bind] at h
        cases h
        exact evictEntry_frame_err _ _ _ _ _ _ _ _ _ hE
      | ok b =>
        rw [hE] at h
        simp only [bind, Except.bind] at h
        exact rf_trans (evictEntry_frame_ok _ _ _ _ _ _ _ _ hE) ((ih b).2 m we h)

theorem evictStep_frame_ok (cfg : Config) (w : World) (c rp bn wp : String) (a : World)
    (h : evictStep cfg w c rp bn wp = .ok a) : reposFrame c w.repos a.repos := by
  unfold evictStep at h
  split at h
  · cases h
    exact rf_refl _ _
  · exact (evictFold_frame cfg c rp bn wp _ w).1 a h

theorem evictStep_frame_err (cfg : Config) (w : World) (c rp bn wp : String)
    (m : String) (we : World)
    (h : evictStep cfg w c rp bn wp = .error (m, we)) : reposFrame c w.repos we.repos := by
  unfold evictStep at h
  split at h
  · cases h
  · exact (evictFold_frame cfg c rp bn wp _ w).2 m we h

theorem createResolved_frame (cfg : Config) (w : World) (key : String) (rc : RepoCfg)
    (type name : String) (bb : Option String) :
    reposFrame rc.name w.repos (createResolved cfg w key rc type name bb).2.repos := by
  unfold createResolved
  simp only []
  repeat' split
  all_goals
    repeat
      first
      | exact rf_refl _ _
      | rw [mkdirp_repos]
      | rw [gitdirMetaFix_repos]
      | rw [postAddGitFileFix_repos]
      | refine rf_trans ?_ (wtAddCmd_frame _ _ _ _ _ _ _ _ (by assumption))
      | refine rf_trans ?_ (setRepo_repos_frame _ _ _)
      | refine rf_trans ?_ (headSwitchAway_frame _ _ _)
      | refine rf_trans ?_ (evictStep_frame_ok _ _ _ _ _ _ _ (by assumption))
      | refine rf_trans ?_ (evictStep_frame_err _ _ _ _ _ _ _ _ (by assumption))
      | refine rf_trans ?_ (pruneScanStep_frame _ _ _ _ _)
      | refine rf_trans ?_ (existingPathStep_frame _ _ _ _ _ _ _ (by assumption))
      | refine rf_trans ?_ (existingPathStep_frame_err _ _ _ _ _ _ _ _ (by assumption))
      | refine rf_trans ?_ (updateRepo_frame _ _ _)
      | refine rf_trans ?_ (ensureCloned_frame _ _ _ _ (by assumption))
      | split

theorem createWorktreeForRepo_frame (cfg : Config) (w : World) (rp type name : String)
    (bb : Option String) (key : String) (rc : RepoCfg)
    (hres : resolveRepoIdent cfg rp = some (key, rc)) :
    reposFrame rc.name w.repos (createWorktreeForRepo cfg w rp type name bb).2.repos := by
  unfold createWorktreeForRepo
  rw [hres]
  exact createResolved_frame cfg w key rc type name bb

/-- The POST creation loop (route.ts lines 1112–1125): thread the world
through the per-repository calls, collecting successes and per-repository
error entries. -/
def createLoop (cfg : Config) (type name : String) (bbs : List (String × String))
    (st : List WorktreeInfo × List (String × String) × World) (repos : List String) :
    List WorktreeInfo × List (String × String) × World :=
  repos.foldl
    (fun (st : List WorktreeInfo × List (String × String) × World) rp =>
      let out := createWorktreeForRepo cfg st.2.2 rp type name (alookup bbs rp)
      match out.1 with
      | .ok wt => (st.1 ++ [wt], st.2.1, out.2)
      | .error e => (st.1, st.2.1 ++ [(rp, e)], out.2))
    st

theorem createLoop_append (cfg : Config) (type name : String)
    (bbs : List (String × String)) (st : List WorktreeInfo × List (String × String) × World)
    (l1 l2 : List String) :
    createLoop cfg type name bbs st (l1 ++ l2) =
      createLoop cfg type name bbs (createLoop cfg type name bbs st l1) l2 :=
  List.foldl_append _ _ _ _

/-- `postCreate` after a passing validation gate is exactly the loop plus
the all-failed check. -/
theorem postCreate_valid (cfg : Config) (w : World) (repos : List String)
    (type name : String) (bbs : List (String × String))
    (h1 : (repos.isEmpty || (type == "") || (name == "")) = false)
    (h2 : VALID_TYPES.contains type = true)
    (h3 : repos.find? (fun rp => (resolveRepoIdent cfg rp).isNone) = none) :
    postCreate cfg w repos type name bbs =
      (let st := createLoop cfg type name bbs ([], [], w) repos
       if st.1.isEmpty then
         (⟨500, [], st.2.1, some "Failed to create worktrees in all repositories"⟩, st.2.2)
       else (⟨200, st.1, st.2.1, none⟩, st.2.2)) := by
  unfold postCreate createLoop
  simp only [h1, h2, h3, Bool.not_true, Bool.false_eq_true, if_neg not_false]

/-- C9: per-repository reconciliations in a multi-repository create request
are independent.  With validation passing and the final repository failing:
(i) the loop records the failing repository as a per-repository error entry,
keeps every already-collected success, and continues with the remaining
repositories (no abort); (ii) the response reports every success from the
other repositories together with the error entry, as 200 unless every
repository failed, and as an overall 500 only in the all-failed case;
(iii) the failing call leaves every other repository's git registration
exactly as the earlier calls left it (no undo). -/
theorem c9_multi_repo_independence
    (cfg : Config) (w : World) (rs : List String) (rlast type name : String)
    (bbs : List (String × String)) (e : String) (key : String) (rc : RepoCfg)
    (htype : VALID_TYPES.contains type = true)
    (htne : (type == "") = false)
    (hnne : (name == "") = false)
    (hresall : (rs ++ [rlast]).find? (fun rp => (resolveRepoIdent cfg rp).isNone) = none)
    (hrlast : resolveRepoIdent cfg rlast = some (key, rc))
    (hfail : (createWorktreeForRepo cfg
        (createLoop cfg type name bbs ([], [], w) rs).2.2 rlast type name
        (alookup bbs rlast)).1 = .error e) :
    (∀ (w0 : World) (succ : List WorktreeInfo) (errs : List (String × String))
        (rest : List String),
      (createWorktreeForRepo cfg w0 rlast type name (alookup bbs rlast)).1 = .error e →
      createLoop cfg type name bbs (succ, errs, w0) (rlast :: rest) =
        createLoop cfg type name bbs
          (succ, errs ++ [(rlast, e)],
            (createWorktreeForRepo cfg w0 rlast type name (alookup bbs rlast)).2) rest) ∧
    ((createLoop cfg type name bbs ([], [], w) rs).1 ≠ [] →
      (postCreate cfg w (rs ++ [rlast]) type name bbs).1 =
        ⟨200, (createLoop cfg type name bbs ([], [], w) rs).1,
          (createLoop cfg type name bbs ([], [], w) rs).2.1 ++ [(rlast, e)], none⟩) ∧
    ((createLoop cfg type name bbs ([], [], w) rs).1 = [] →
      (postCreate cfg w (rs ++ [rlast]) type name bbs).1 =
        ⟨500, [], (createLoop cfg type name bbs ([], [], w) rs).2.1 ++ [(rlast, e)],
          some "Failed to create worktrees in all repositories"⟩) ∧
    (∀ n, n ≠ rc.name →
      getRepo (postCreate cfg w (rs ++ [rlast]) type name bbs).2 n =
      getRepo (createLoop cfg type name bbs ([], [], w) rs).2.2 n) := by
  have hval1 : ((rs ++ [rlast]).isEmpty || (type == "") || (name == "")) = false := by
    simp [htne, hnne]
  have hpc := postCreate_valid cfg w (rs ++ [rlast]) type name bbs hval1 htype hresall
  set L := createLoop cfg type name bbs ([], [], w) rs with hL
  have hsingle : createLoop cfg type name bbs L [rlast] =
      (L.1, L.2.1 ++ [(rlast, e)],
        (createWorktreeForRepo cfg L.2.2 rlast type name (alookup bbs rlast)).2) := by
    unfold createLoop
    rw [List.foldl_cons, List.foldl_nil]
    simp only [hfail]
  have hloop : createLoop cfg type name bbs ([], [], w) (rs ++ [rlast]) =
      (L.1, L.2.1 ++ [(rlast, e)],
        (createWorktreeForRepo cfg L.2.2 rlast type name (alookup bbs rlast)).2) := by
    rw [createLoop_append, ← hL, hsingle]
  rw [hloop] at hpc
  refine ⟨?_, ?_, ?_, ?_⟩
  · intro w0 succ errs rest hf0
    unfold createLoop
    rw [List.foldl_cons]
    simp only [hf0]
  · intro hne
    have hie : L.1.isEmpty = false := by
      simpa [List.isEmpty_iff] using hne
    rw [hpc]
    simp only [hie, Bool.false_eq_true, if_neg not_false]
  · intro hemp
    rw [hpc]
    simp only [hemp, List.isEmpty_nil, if_true]
  · intro n hn
    rw [hpc]
    have hframe := createWorktreeForRepo_frame cfg L.2.2 rlast type name
      (alookup bbs rlast) key rc hrlast
    have hgr : getRepo (createWorktreeForRepo cfg L.2.2 rlast type name
        (alookup bbs rlast)).2 n = getRepo L.2.2 n := hframe n hn
    simp only []
    split
    · exact hgr
    · exact hgr

/-- A two-repository configuration: `alpha` as in `exCfg`, plus a `beta`
repository. -/
def c9Cfg : Config :=
  ⟨[("alpha-key", ⟨"alpha", "https://github.com/org/alpha"⟩),
    ("beta-key", ⟨"beta", "https://github.com/org/beta"⟩)],
   "/repos", "/repos", "/repos/Tree"⟩

/-- `alpha` cloned on `dev`; `beta` neither cloned nor reachable, so its
per-repository creation fails while the `alpha` one succeeds. -/
def c9World : World :=
  { fs := [("/repos", .dir), ("/repos/alpha", .dir), ("/repos/alpha/.git", .dir)],
    repos := [("alpha", ⟨["dev"], ["dev"], "dev", []⟩)],
    remotes := [("alpha", ⟨["dev"], "dev"⟩)],
    heads := [], tokenAvailable := true, fetchFails := false, rmFails := [], events := [] }

theorem c9_multi_repo_independence_witness :
    (postCreate c9Cfg c9World ["alpha", "beta"] "feat" "login" []).1 =
      ⟨200, (createLoop c9Cfg "feat" "login" [] ([], [], c9World) ["alpha"]).1,
        (createLoop c9Cfg "feat" "login" [] ([], [], c9World) ["alpha"]).2.1 ++
          [("beta", "fatal: could not read from remote repository https://github.com/org/beta")],
        none⟩ :=
  (c9_multi_repo_independence c9Cfg c9World ["alpha"] "beta" "feat" "login" []
    "fatal: could not read from remote repository https://github.com/org/beta"
    "beta-key" ⟨"beta", "https://github.com/org/beta"⟩
    (by decide) rfl rfl (by decide) rfl rfl).2.1 (by decide)

end WTM
